import Mathlib

/-!
Verification development for the PiloTY PTY driver (src/piloty).

The Python sources are shallowly embedded: pure fragments of
`src/piloty/core.py` and `src/piloty/mcp_server.py` become executable Lean
definitions over `String` / `List Char`, stateful fragments become explicit
state-passing functions, and the I/O boundary (PTY reads, wall-clock time,
the sampling oracle) is abstracted as explicit input traces or parameters.
Machine strings are modelled at the code-point level, matching Python's
`len`/indexing semantics on `str`.
-/

namespace PiloTY

/-! ## Python string primitives

Helpers mirroring the Python `str` operations used by the sources.  They are
stated over `List Char` (a `str` as its sequence of code points) with `String`
wrappers.  Case and character-class operations are modelled on the Basic Latin
and Latin-1 ranges (code points < 0x100), which covers every input the
theorems below exercise; Python additionally handles higher Unicode ranges.
-/

/-- Python `str.strip()` / `str.rstrip()` whitespace set (ASCII part). -/
def pyIsSpace (c : Char) : Bool :=
  c = ' ' || c = '\t' || c = '\n' || c = '\r' || c = '\x0b' || c = '\x0c'

/-- Python `str.rstrip()` (ASCII whitespace). -/
def pyRstrip (s : String) : String :=
  ⟨(s.data.reverse.dropWhile pyIsSpace).reverse⟩

/-- Python `str.strip()` (ASCII whitespace). -/
def pyStrip (s : String) : String :=
  ⟨((s.data.dropWhile pyIsSpace).reverse.dropWhile pyIsSpace).reverse⟩

/-- Python `str.lower()` on one character, Basic Latin + Latin-1
(`A`-`Z` and `À`-`Þ` except `×` map down by 0x20; others unchanged). -/
def pyLowerChar (c : Char) : Char :=
  if 'A' ≤ c && c ≤ 'Z' then Char.ofNat (c.toNat + 32)
  else if 0xC0 ≤ c.toNat && c.toNat ≤ 0xDE && c.toNat ≠ 0xD7 then Char.ofNat (c.toNat + 32)
  else c

/-- Python `str.lower()`. -/
def pyLower (s : String) : String :=
  ⟨s.data.map pyLowerChar⟩

/-- Python `str.isalpha()` on one character, for code points < 0x100
(ASCII letters plus the Latin-1 letters `ª µ º À`-`Ö Ø`-`ö ø`-`ÿ`). -/
def pyIsAlphaChar (c : Char) : Bool :=
  c.isAlpha
    || c.toNat = 0xAA || c.toNat = 0xB5 || c.toNat = 0xBA
    || (0xC0 ≤ c.toNat && c.toNat ≤ 0xD6)
    || (0xD8 ≤ c.toNat && c.toNat ≤ 0xF6)
    || (0xF8 ≤ c.toNat && c.toNat ≤ 0xFF)

/-- Substring scan on character lists: does `needle` occur inside `hay`? -/
def listContainsSub (hay needle : List Char) : Bool :=
  match hay with
  | [] => needle.isEmpty
  | c :: rest => needle.isPrefixOf (c :: rest) || listContainsSub rest needle

/-- Python `needle in hay` on strings (substring containment). -/
def strContains (hay needle : String) : Bool :=
  listContainsSub hay.data needle.data

/-- Python `s.endswith(suffix)`. -/
def strEndsWith (s suffix : String) : Bool :=
  suffix.data.isSuffixOf s.data

/-- Python `s.startswith(pre)`. -/
def strStartsWith (s pre : String) : Bool :=
  pre.data.isPrefixOf s.data

/-- Prepend a character to the first field of a split result. -/
def consHead (c : Char) : List (List Char) → List (List Char)
  | [] => [[c]]
  | l :: ls => (c :: l) :: ls

/-- Split a character list at every occurrence of `sep`, keeping empty
fields, like Python's `str.split(sep)` for a one-character separator.
Always returns at least one (possibly empty) field. -/
def splitOnChar (sep : Char) : List Char → List (List Char)
  | [] => [[]]
  | c :: rest =>
    if c = sep then [] :: splitOnChar sep rest
    else consHead c (splitOnChar sep rest)

/-- Python `screen.split("\n")`. -/
def pySplitNL (s : String) : List String :=
  (splitOnChar '\n' s.data).map (fun cs => ⟨cs⟩)

/-- Join character lists with a one-character separator
(Python `sep.join(parts)` for a one-character `sep`). -/
def joinWithChar (sep : Char) : List (List Char) → List Char
  | [] => []
  | [l] => l
  | l :: ls => l ++ sep :: joinWithChar sep ls

/-- Python `"\n".join(parts)`. -/
def joinNL (parts : List String) : String :=
  ⟨joinWithChar '\n' (parts.map String.data)⟩

/-- Left-to-right non-overlapping replacement on character lists; the
recursion is fuelled by the input length (`fuel` never runs out at the
`pyReplace` call site). -/
def replaceGo (pat rep : List Char) : Nat → List Char → List Char
  | 0, s => s
  | _ + 1, [] => []
  | fuel + 1, c :: rest =>
    if !pat.isEmpty && pat.isPrefixOf (c :: rest) then
      rep ++ replaceGo pat rep fuel (rest.drop (pat.length - 1))
    else
      c :: replaceGo pat rep fuel rest

/-- Python `s.replace(pat, rep)` for a non-empty `pat` (the sources only
call it with a non-empty pattern; for an empty `pat` we return `s`). -/
def pyReplace (s pat rep : String) : String :=
  if pat.data.isEmpty then s
  else ⟨replaceGo pat.data rep.data (s.data.length + 1) s.data⟩

/-- A simplified Python `repr` for quote-free text (`mcp_server.py` only uses
it inside human-readable reason strings). -/
def pyReprSimple (s : String) : String :=
  "'" ++ s ++ "'"

/-! ## `send_control` key mapping (`mcp_server.py` lines 937-944)

```python
key = key.lower()
if key == "[" or key == "escape" or key == "esc":
    char = "\x1b"  # Escape
elif len(key) == 1 and key.isalpha():
    char = chr(ord(key) - ord("a") + 1)  # Ctrl+letter
else:
    raise ValueError(f"Unknown control key: {key}")
```
`sendControlChar key = some ch` means `ch` is sent to the child;
`none` means the `ValueError` is raised and nothing is sent. -/
def sendControlChar (key : String) : Option Char :=
  let k := pyLower key
  if k = "[" || k = "escape" || k = "esc" then some '\x1b'
  else if k.length = 1 && pyIsAlphaChar (k.data.getD 0 ' ') then
    some (Char.ofNat ((k.data.getD 0 ' ').toNat - 'a'.toNat + 1))
  else none

/-! ## PATH sanitation (`core.py` lines 57-96)

`normAbs` abstracts `os.path.normcase(os.path.abspath(·))`, which depends on
the process working directory; all theorems below hold for every such
normalisation function. `os.pathsep` is `":"` (POSIX). -/

/-- Python `path_value.split(os.pathsep)`. -/
def splitPathsep (s : String) : List String :=
  (splitOnChar ':' s.data).map (fun cs => ⟨cs⟩)

/-- Python `os.pathsep.join(parts)`. -/
def joinPathsep (parts : List String) : String :=
  ⟨joinWithChar ':' (parts.map String.data)⟩

/-- `core.py` `_path_without_entry`: drop empty components and components
whose normalised absolute path equals that of `entry`; keep the rest
verbatim, in order. -/
def pathWithoutEntry (normAbs : String → String) (pathValue entry : String) : String :=
  if pathValue = "" then ""
  else
    joinPathsep ((splitPathsep pathValue).filter
      (fun part => part ≠ "" && normAbs part ≠ normAbs entry))

/-- Inputs of the PATH fragment of `core.py` `_session_env`:
the parent `PATH`, the leaked-virtualenv `bin` directory
(`os.path.abspath(os.path.join(env["VIRTUAL_ENV"], "bin"))` when
`VIRTUAL_ENV` was set), the running interpreter's `bin` directory, and
whether that directory has a `pyvenv.cfg` sibling. -/
structure SessionEnvInput where
  envPath : String
  venvBin : Option String
  exeBin : String
  exeBinIsVenv : Bool

/-- The set `leaked_bins` of `_session_env`, as a list.  Python iterates a
`set`, whose order is unspecified; the result of the fold below is
order-independent because `_path_without_entry` commutes with itself. -/
def leakedBins (inp : SessionEnvInput) : List String :=
  (match inp.venvBin with
   | some b => [b]
   | none => []) ++ (if inp.exeBinIsVenv then [inp.exeBin] else [])

/-- The final `env["PATH"]` computed by `_session_env`:
`for leaked_bin in leaked_bins: path_value = _path_without_entry(path_value, leaked_bin)`. -/
def sessionEnvPath (normAbs : String → String) (inp : SessionEnvInput) : String :=
  (leakedBins inp).foldl (fun pv b => pathWithoutEntry normAbs pv b) inp.envPath

/-! ## State classifier (`mcp_server.py` `detect_state_heuristic`, lines 401-529)

The classifier is a pure function of the screen text, the cursor column and
the optional per-session shell-prompt regex.  The compiled regex is embedded
as an opaque search function `matcher : Option (String → Option String)`
returning the matched substring (`re.search(...).group(0)`); `none` models
both an absent/empty `shell_prompt_regex` and one whose compilation raised
`re.error` (the code then sets `m = None`). -/

/-- The terminal-state labels of `detect_state_heuristic`. -/
inductive TermState
  | READY | RUNNING | REPL | PASSWORD | CONFIRM | EDITOR | PAGER | ERROR | UNKNOWN
deriving DecidableEq

/-- The Python string value of a label (used in f-string reasons). -/
def stateName : TermState → String
  | .READY => "READY"
  | .RUNNING => "RUNNING"
  | .REPL => "REPL"
  | .PASSWORD => "PASSWORD"
  | .CONFIRM => "CONFIRM"
  | .EDITOR => "EDITOR"
  | .PAGER => "PAGER"
  | .ERROR => "ERROR"
  | .UNKNOWN => "UNKNOWN"

/-- `lines = screen.strip().split("\n")`. -/
def detectLines (screen : String) : List String :=
  pySplitNL (pyStrip screen)

/-- `window = lines[-12:]`. -/
def detectWindow (screen : String) : List String :=
  let l := detectLines screen
  l.drop (l.length - 12)

/-- `window_lower = "\n".join(window).lower()`. -/
def detectWindowLower (screen : String) : String :=
  pyLower (joinNL (detectWindow screen))

/-- `tail_nonempty = [ln.rstrip() for ln in window if ln.strip()]`. -/
def detectTailNE (screen : String) : List String :=
  ((detectWindow screen).filter (fun ln => pyStrip ln ≠ "")).map pyRstrip

/-- `tail_last = tail_nonempty[-1] if tail_nonempty else lines[-1].rstrip()`. -/
def detectTailLast (screen : String) : String :=
  match (detectTailNE screen).getLast? with
  | some t => t
  | none => pyRstrip (((detectLines screen).getLast?).getD "")

/-- `cursor_x is not None and cursor_x == 0`. -/
def cursorZero : Option Nat → Bool
  | some n => n == 0
  | none => false

/-- `cursor_x is None or cursor_x > 0` (the REPL-branch cursor guard). -/
def replCursorOk : Option Nat → Bool
  | none => true
  | some n => decide (0 < n)

/-- `repl_patterns` with their names, in source order. -/
def replPatterns : List (String × String) :=
  [(">>> ", "python"), (">>>", "python"), ("... ", "python continuation"),
   ("in [", "ipython"), ("out[", "ipython output"), ("(pdb)", "pdb"),
   ("ipdb>", "ipdb"), ("irb(", "ruby"), ("pry(", "pry"), ("mysql>", "mysql"),
   ("postgres=#", "psql"), ("postgres=>", "psql"), ("sqlite>", "sqlite")]

/-- The REPL loop: first pattern with
`(cursor_x is None or cursor_x > 0) and (prompt in tail_last or prompt in tail_last.lower())`. -/
def replFind (cx : Option Nat) (tl : String) : Option String :=
  if replCursorOk cx then
    (replPatterns.find? (fun pr => strContains tl pr.1 || strContains (pyLower tl) pr.1)).map
      (fun pr => pr.2)
  else none

/-- `"-- insert --" in window_lower or "-- normal --" in window_lower`. -/
def editorVimHitB (wl : String) : Bool :=
  strContains wl "-- insert --" || strContains wl "-- normal --"

/-- `"gnu nano" in window_lower or "^g get help" in window_lower`. -/
def editorNanoHitB (wl : String) : Bool :=
  strContains wl "gnu nano" || strContains wl "^g get help"

/-- `tail_last == ":" or "(end)" in tail_last.lower() or "manual page" in window_lower`. -/
def pagerHitB (tl wl : String) : Bool :=
  tl = ":" || strContains (pyLower tl) "(end)" || strContains wl "manual page"

/-- `matcherSearch` applies the embedded `re.search` of `shell_prompt_regex`. -/
def matcherSearch : Option (String → Option String) → String → Option String
  | none, _ => none
  | some f, s => f s

/-- The shared prompt-hit tail: `RUNNING` at cursor column 0, else `READY`. -/
def promptOr (cx : Option Nat) (reason : String) : TermState × String :=
  if cursorZero cx then (TermState.RUNNING, "cursor at column 0")
  else (TermState.READY, reason)

/-- The `$`/`#` progress-bar filter:
`"%" in s or ("[" in s and "]" in s)`. -/
def promptFilterBad (s : String) : Bool :=
  strContains s "%" || (strContains s "[" && strContains s "]")

/-- The bare-`>` prompt test:
`s.endswith(">") and "%" not in s and "[" not in s and len(s) < 50`. -/
def bareGtOk (s : String) : Bool :=
  strEndsWith s ">" && !strContains s "%" && !strContains s "[" && decide (s.length < 50)

/-- The zsh-`%` prompt test:
`s.endswith("%") and not s[-2:-1].isdigit()` (with `"".isdigit() == False`). -/
def zshOk (s : String) : Bool :=
  strEndsWith s "%" && !(decide (2 ≤ s.length) && (s.data.getD (s.length - 2) ' ').isDigit)

/-- The shell-prompt section of the heuristic (the `$`/`#` loop with its
`break`, then the bare-`>` check, then the `%` check), applied to
`tail_last_stripped`.  `none` means fall through to the password section. -/
def shellPromptCheck (s : String) (cx : Option Nat) : Option (TermState × String) :=
  if strEndsWith s "$" then
    if promptFilterBad s then none else some (promptOr cx "shell prompt '$'")
  else if strEndsWith s "#" then
    if promptFilterBad s then none else some (promptOr cx "shell prompt '#'")
  else if bareGtOk s then some (promptOr cx "generic prompt")
  else if zshOk s then some (promptOr cx "zsh prompt")
  else none

/-- `pw_recent = tail_nonempty[-3:] if tail_nonempty else [tail_last]`. -/
def pwRecent (screen : String) : List String :=
  let tne := detectTailNE screen
  if tne.isEmpty then [detectTailLast screen] else tne.drop (tne.length - 3)

/-- `pw_recent_lower = "\n".join(ln.lower() for ln in pw_recent)`. -/
def pwRecentLower (screen : String) : String :=
  joinNL ((pwRecent screen).map pyLower)

/-- `recent = [ln.lower() for ln in tail_nonempty[-3:]] if tail_nonempty else [tail_last.lower()]`,
for the error section. -/
def errRecent (screen : String) : List String :=
  let tne := detectTailNE screen
  if tne.isEmpty then [pyLower (detectTailLast screen)]
  else (tne.drop (tne.length - 3)).map pyLower

/-- `recent_join = "\n".join(recent)`. -/
def errRecentJoin (screen : String) : String :=
  joinNL (errRecent screen)

/-- `password_patterns`, in source order. -/
def passwordPatterns : List String :=
  ["password:", "password for", "passphrase:", "passphrase for",
   "enter password", "enter passphrase", "[sudo]", "secret:"]

/-- `confirm_indicators`, in source order. -/
def confirmIndicators : List String :=
  ["[y/n]", "[yes/no]", "continue?", "are you sure", "proceed?"]

/-- `error_indicators`, in source order. -/
def errorIndicators : List String :=
  ["error:", "failed:", "fatal:", "exception:", "traceback", "indexerror", "keyerror"]

/-- `detect_state_heuristic(screen, cursor_x=..., shell_prompt_regex=...)`. -/
def detectStateHeuristic (screen : String) (cx : Option Nat)
    (matcher : Option (String → Option String)) : TermState × String :=
  let lines := detectLines screen
  if lines.isEmpty then (TermState.UNKNOWN, "empty screen")
  else
    let wl := detectWindowLower screen
    let tl := detectTailLast screen
    match replFind cx tl with
    | some name => (TermState.REPL, name ++ " prompt")
    | none =>
      if editorVimHitB wl then (TermState.EDITOR, "vim mode indicator")
      else if editorNanoHitB wl then (TermState.EDITOR, "nano indicators")
      else if pagerHitB tl wl then (TermState.PAGER, "pager indicators")
      else
        match matcherSearch matcher tl with
        | some g => promptOr cx ("shell_prompt_regex matched: " ++ pyReprSimple g)
        | none =>
          match shellPromptCheck (pyRstrip tl) cx with
          | some r => r
          | none =>
            if passwordPatterns.any (fun p => strContains (pwRecentLower screen) p) then
              (TermState.PASSWORD, "password prompt detected")
            else
              match confirmIndicators.find? (fun p => strContains (pwRecentLower screen) p) with
              | some ind => (TermState.CONFIRM, "found '" ++ ind ++ "'")
              | none =>
                if cursorZero cx then (TermState.RUNNING, "cursor at column 0")
                else
                  match errorIndicators.find? (fun p => strContains (errRecentJoin screen) p) with
                  | some ind => (TermState.ERROR, "found '" ++ ind ++ "'")
                  | none => (TermState.RUNNING, "no prompt detected")

/-! ## Oracle refinement (`mcp_server.py` `determine_terminal_state`, lines 354-398)

`samplingAvailable` collapses the two availability tests of the code
(`ctx and ctx.session` and `sampling_caps is not None`); when either fails
the code returns the heuristic result.  `oracleResult` is the
`(state, reason)` pair that `interpret_terminal_state` would return; the
code consults it at most once. -/

/-- `sampled_state in {"PASSWORD", "CONFIRM", "REPL", "EDITOR", "PAGER"}`. -/
def oracleOverrides (s : TermState) : Bool :=
  s = TermState.PASSWORD || s = TermState.CONFIRM || s = TermState.REPL
    || s = TermState.EDITOR || s = TermState.PAGER

/-- `determine_terminal_state(ctx, screen, cursor_x, shell_prompt_regex)`. -/
def determineTerminalState (samplingAvailable : Bool) (oracleResult : TermState × String)
    (screen : String) (cx : Option Nat)
    (matcher : Option (String → Option String)) : TermState × String :=
  let h := detectStateHeuristic screen cx matcher
  if samplingAvailable then
    if h.1 ≠ TermState.RUNNING then h
    else if oracleOverrides oracleResult.1 then oracleResult
    else if oracleResult.1 = TermState.UNKNOWN then
      (h.1, "sampling=UNKNOWN (" ++ oracleResult.2 ++ "); heuristic="
        ++ stateName h.1 ++ " (" ++ h.2 ++ ")")
    else
      (h.1, "sampling=" ++ stateName oracleResult.1 ++ " (" ++ oracleResult.2
        ++ "); heuristic=" ++ h.2)
  else h

/-! ## `send_password` reply assembly (`mcp_server.py` lines 841-880)

`post` is the ANSI-stripped output of the underlying `session.type` call
(`_maybe_strip_ansi(result["output"], strip_ansi=True)`).

```python
redacted = post.replace(password, "[redacted]") if password else post
if redacted.strip():
    out = "[password sent]\n" + redacted
else:
    out = "[password sent]"
```
-/
def sendPasswordOutput (password post : String) : String :=
  let redacted := if password ≠ "" then pyReplace post password "[redacted]" else post
  if pyStrip redacted ≠ "" then "[password sent]\n" ++ redacted
  else "[password sent]"

/-- The arguments `send_password` passes to `session.type`
(`session.type(password + "\n", ..., log=False, echo=False)`). -/
structure TypeCallArgs where
  text : String
  log : Bool
  echo : Option Bool
deriving DecidableEq

/-- `mcp_server.py` lines 841-848. -/
def sendPasswordTypeCall (password : String) : TypeCallArgs :=
  ⟨password ++ "\n", false, some false⟩

/-- A log-file write performed by `PTY.type` / `PTY._drain` (`core.py`). -/
inductive LogWrite
  | transcriptWrite (chunk : String)
  | commandWrite (text : String)
  | interactionWrite (text output status : String)
deriving DecidableEq

/-- The log writes of one `PTY.type(text, ..., log=log)` call whose drain read
`chunks`: `_drain` appends each chunk to `transcript.log` only `if log`
(`core.py` lines 564-569, 603-608), and the call appends to `commands.log`
and `interaction.log` only `if log` (lines 221-224). -/
def typeLogWrites (log : Bool) (text : String) (chunks : List String)
    (output status : String) : List LogWrite :=
  if log then
    chunks.map LogWrite.transcriptWrite
      ++ [LogWrite.commandWrite text, LogWrite.interactionWrite text output status]
  else []

/-! ## Session manager (`mcp_server.py` `SessionManager`, lines 184-307, and
the `terminate` tool, lines 1625-1633)

Python `dict`s preserve insertion order; they are modelled as association
lists, with in-place update keeping the position of an existing key.  A `PTY`
instance is modelled as an opaque token, drawn from a fresh-token counter
(`nextPty`); `time.monotonic()` is modelled by a strictly increasing `tick`.
The `_config` dictionary only carries `description`/`shell_prompt_regex`
through to the created `PTY` and does not affect the lifecycle claims, so it
is not modelled. -/

/-- `d.get(k)` on an insertion-ordered dict modelled as an association list. -/
def lookupA (l : List (String × Nat)) (k : String) : Option Nat :=
  (l.find? (fun p => p.1 = k)).map (fun p => p.2)

/-- `d[k] = v`: replace in place if present, else append. -/
def setA (l : List (String × Nat)) (k : String) (v : Nat) : List (String × Nat) :=
  if (l.find? (fun p => p.1 = k)).isSome then
    l.map (fun p => if p.1 = k then (k, v) else p)
  else l ++ [(k, v)]

/-- `d.pop(k, None)` / `del d[k]`. -/
def eraseA (l : List (String × Nat)) (k : String) : List (String × Nat) :=
  l.filter (fun p => ¬ p.1 = k)

/-- `min(d, key=d.get, default=None)`: the first key (in insertion order)
holding the minimal value.  Python's `min` replaces the current best only on
a strictly smaller value, so the earliest minimum wins. -/
def argminP : List (String × Nat) → Option (String × Nat)
  | [] => none
  | p :: rest =>
    match argminP rest with
    | none => some p
    | some q => if p.2 ≤ q.2 then some p else some q

/-- The `SessionManager` state: `sessions` (id ↦ PTY token), `_last_used`
(id ↦ tick), `_terminated` (a set, modelled with `contains` semantics),
`_max_sessions`, plus the fresh-PTY counter and clock. -/
structure SMState where
  sessions : List (String × Nat)
  lastUsed : List (String × Nat)
  terminated : List String
  maxSessions : Nat
  nextPty : Nat
  tick : Nat
deriving DecidableEq

/-- `SessionManager.__init__`: empty maps, `_max_sessions = 32`. -/
def initSM : SMState :=
  ⟨[], [], [], 32, 0, 0⟩

/-- `SessionManager.get_session(session_id, cwd=...)` (lines 194-224).
`Except.error "terminated"` is the `RuntimeError("terminated")` raised for a
tombstoned id; `Except.error "cwd..."` the `ValueError` for a missing cwd. -/
def getSession (st : SMState) (id : String) (cwd : Option String) :
    Except String (SMState × Nat) :=
  if st.terminated.contains id then .error "terminated"
  else
    match lookupA st.sessions id with
    | some pty =>
      .ok ({ st with lastUsed := setA st.lastUsed id st.tick, tick := st.tick + 1 }, pty)
    | none =>
      let st1 :=
        if 0 < st.maxSessions ∧ st.maxSessions ≤ st.sessions.length then
          match argminP st.lastUsed with
          | some oldest =>
            { st with sessions := eraseA st.sessions oldest.1,
                      lastUsed := eraseA st.lastUsed oldest.1 }
          | none => st
        else st
      match cwd with
      | none => .error "cwd is required when creating a new session"
      | some _ =>
        .ok ({ st1 with sessions := st1.sessions ++ [(id, st1.nextPty)],
                        nextPty := st1.nextPty + 1,
                        lastUsed := setA st1.lastUsed id st1.tick,
                        tick := st1.tick + 1 },
             st1.nextPty)

/-- The `terminate` MCP tool (lines 1625-1633): add the id to `_terminated`,
then, if live, terminate the PTY and drop it from `sessions`/`_last_used`. -/
def mcpTerminate (st : SMState) (id : String) : SMState :=
  let st1 := { st with terminated := id :: st.terminated }
  if (lookupA st1.sessions id).isSome then
    { st1 with sessions := eraseA st1.sessions id, lastUsed := eraseA st1.lastUsed id }
  else st1

/-- Test harness: create the given ids in order (`get_session(id, cwd="/tmp")`),
ignoring errors (none occur in the scenarios below). -/
def createMany (st : SMState) (ids : List String) : SMState :=
  ids.foldl
    (fun s i =>
      match getSession s i (some "/tmp") with
      | .ok r => r.1
      | .error _ => s)
    st

/-! ### Tombstone dispatch of the MCP tools

Each tool's early-return checks, from `mcp_server.py`:
every tool listed in the API except `expect_prompt` first checks
`session_id in session_manager._terminated` and replies with
`status="terminated"`; the session-bearing tools then check
`session_id not in session_manager.sessions` and reply `status="unknown"`
with a creation hint.  `expect_prompt` (lines 1334-1339) performs only the
`sessions` check and never consults `_terminated`.  `create_session` and
`configure_session` proceed past the tombstone check instead of requiring a
live session.  `some s` below is an early reply with status `s`; `none`
means the tool proceeds to its live-session body. -/

inductive ToolOp
  | runOp | sendInputOp | sendPasswordOp | sendControlOp | sendSignalOp
  | pollOutputOp | expectOp | expectPromptOp | getScreenOp | getScrollbackOp
  | clearScrollbackOp | getMetadataOp | configureSessionOp | transcriptOp
  | createSessionOp
deriving DecidableEq

/-- The early-reply status of a tool called with a given id, as a function of
`tombstoned = id ∈ _terminated` and `inSessions = id ∈ sessions`. -/
def earlyReplyStatus (op : ToolOp) (tombstoned inSessions : Bool) : Option String :=
  match op with
  | .expectPromptOp => if !inSessions then some "unknown" else none
  | .createSessionOp => if tombstoned then some "terminated" else none
  | .configureSessionOp => if tombstoned then some "terminated" else none
  | _ =>
    if tombstoned then some "terminated"
    else if !inSessions then some "unknown"
    else none

/-! ## The drainer (`core.py` `PTY._drain`, lines 529-615)

The PTY byte source and the monotonic clock are abstracted as a trace of
read events, consumed one per `read_nonblocking` attempt.  The immediate
non-blocking read (`timeout=0`) is instantaneous; a blocking read advances
the clock by its event's `elapsedMs`.  Times are in milliseconds; the
deadline is an `Int` so that non-positive call timeouts are representable.
The trace being exhausted (`Option.none` result) never occurs for the traces
used in the theorems below. -/

inductive ReadOutcome
  | chunk (s : String)
  | noData
  | eofR
  | errR (msg : String)
deriving DecidableEq

structure ReadEvent where
  outcome : ReadOutcome
  elapsedMs : Nat
deriving DecidableEq

/-- One pass of the `while True` loop of `_drain`, recursing on the event
trace.  Mirrors the source order: deadline check, immediate non-blocking
read (on data: update `last_output_time`, capture, `continue`), quiescence
check, then the bounded blocking read (the second event of the pattern). -/
def drainGo (deadline : Int) (quiescenceMs : Nat) (requireOutput : Bool)
    (now lastOut : Nat) (sawOutput : Bool) (captured : List String) :
    List ReadEvent → Option (String × List String)
  | [] =>
    if deadline ≤ (now : Int) then some ("timeout", captured) else none
  | [e] =>
    if deadline ≤ (now : Int) then some ("timeout", captured)
    else
      match e.outcome with
      | .chunk s =>
        drainGo deadline quiescenceMs requireOutput now now true (captured ++ [s]) []
      | .eofR => some ("eof", captured)
      | .errR _ => some ("error", captured)
      | .noData =>
        if (!requireOutput || sawOutput)
            && (quiescenceMs : Int) ≤ (now : Int) - (lastOut : Int) then
          some ("quiescent", captured)
        else none
  | e :: e2 :: rest2 =>
    if deadline ≤ (now : Int) then some ("timeout", captured)
    else
      match e.outcome with
      | .chunk s =>
        drainGo deadline quiescenceMs requireOutput now now true (captured ++ [s])
          (e2 :: rest2)
      | .eofR => some ("eof", captured)
      | .errR _ => some ("error", captured)
      | .noData =>
        if (!requireOutput || sawOutput)
            && (quiescenceMs : Int) ≤ (now : Int) - (lastOut : Int) then
          some ("quiescent", captured)
        else
          match e2.outcome with
          | .chunk s =>
            drainGo deadline quiescenceMs requireOutput (now + e2.elapsedMs)
              (now + e2.elapsedMs) true (captured ++ [s]) rest2
          | .noData =>
            drainGo deadline quiescenceMs requireOutput (now + e2.elapsedMs)
              lastOut sawOutput captured rest2
          | .eofR => some ("eof", captured)
          | .errR _ => some ("error", captured)

/-- `PTY._drain(quiescence_ms, timeout, ...)` entered at monotonic time
`startNow` with `self._last_output_time = lastOutputTime`:
`deadline = time.monotonic() + timeout`, `saw_output = False`. -/
def drain (timeoutMs : Int) (quiescenceMs : Nat) (requireOutput : Bool)
    (startNow lastOutputTime : Nat) (events : List ReadEvent) :
    Option (String × List String) :=
  drainGo ((startNow : Int) + timeoutMs) quiescenceMs requireOutput
    startNow lastOutputTime false [] events

/-! ## Capture buffer (`core.py` `_capture_reset`/`_capture_chunk`/
`_capture_line`/`_capture_output`/`_capture_stats`, lines 646-702)

Line content is modelled as `List Char` (a Python `str` as its code points;
`len` agrees).  `_max_lines = 100` and `_context_lines = 20` are the values
set in `PTY.__init__` (lines 130-131). -/

def captureMaxLines : Nat := 100

def captureContextLines : Nat := 20

/-- Python `str.splitlines()` line-break set. -/
def isPyLineBreak (c : Char) : Bool :=
  c = '\n' || c = '\r' || c = '\x0b' || c = '\x0c' || c = '\x1c'
    || c = '\x1d' || c = '\x1e' || c = '\x85' || c = '\u2028' || c = '\u2029'

/-- `str.splitlines(keepends=True)`: accumulate the current line in
(reversed) `acc`; `\r\n` counts as a single break; a trailing unterminated
fragment is emitted as a final line. -/
def splitLinesKeepAux (acc : List Char) : List Char → List (List Char)
  | [] => if acc.isEmpty then [] else [acc.reverse]
  | [c] =>
    if isPyLineBreak c then [acc.reverse ++ [c]] else [(c :: acc).reverse]
  | c :: c2 :: rest =>
    if c = '\r' && c2 = '\n' then
      (acc.reverse ++ ['\r', '\n']) :: splitLinesKeepAux [] rest
    else if isPyLineBreak c then
      (acc.reverse ++ [c]) :: splitLinesKeepAux [] (c2 :: rest)
    else splitLinesKeepAux (c :: acc) (c2 :: rest)

/-- `buf.splitlines(True)`. -/
def splitLinesKeep (cs : List Char) : List (List Char) :=
  splitLinesKeepAux [] cs

/-- `parts[-1].endswith(("\n", "\r"))`. -/
def endsNLCR (l : List Char) : Bool :=
  match l.getLast? with
  | some c => c = '\n' || c = '\r'
  | none => false

/-- The per-operation capture state (`_capture_reset`, lines 646-652):
`fullLines = some l` is full mode (`_full_lines` a list), `none` is
head+tail mode; `tailLines` is the `deque(maxlen=_context_lines)`. -/
structure CaptureState where
  fullLines : Option (List (List Char))
  headLines : List (List Char)
  tailLines : List (List Char)
  totalLines : Nat
  lineBuf : List Char
  totalBytes : Nat
deriving DecidableEq

/-- `_capture_reset`. -/
def initCapture : CaptureState :=
  ⟨some [], [], [], 0, [], 0⟩

/-- `deque.append` on a `deque(maxlen=n)`: evict from the left when full. -/
def dequePush (maxlen : Nat) (q : List (List Char)) (x : List Char) : List (List Char) :=
  let q' := q ++ [x]
  if maxlen < q'.length then q'.drop (q'.length - maxlen) else q'

/-- `_capture_line` (lines 665-675): count the line; in full mode append and,
past `_max_lines`, switch irreversibly to head+tail (`full[:context]`,
`deque(full[-context:], maxlen=context)`); in head+tail mode push into the
tail deque. -/
def captureLine (st : CaptureState) (line : List Char) : CaptureState :=
  let st1 := { st with totalLines := st.totalLines + 1 }
  match st1.fullLines with
  | some l =>
    let l' := l ++ [line]
    if captureMaxLines < l'.length then
      { st1 with fullLines := none,
                 headLines := l'.take captureContextLines,
                 tailLines := l'.drop (l'.length - captureContextLines) }
    else { st1 with fullLines := some l' }
  | none => { st1 with tailLines := dequePush captureContextLines st.tailLines line }

/-- `_capture_chunk` (lines 654-663): count the bytes, split
`_line_buf + chunk` at line boundaries, hold back an unterminated trailing
fragment, and feed the completed lines to `_capture_line`. -/
def captureChunk (st : CaptureState) (chunk : List Char) : CaptureState :=
  let st1 := { st with totalBytes := st.totalBytes + chunk.length }
  let parts := splitLinesKeep (st.lineBuf ++ chunk)
  match parts.getLast? with
  | none => { st1 with lineBuf := [] }
  | some last =>
    if endsNLCR last then
      parts.foldl captureLine { st1 with lineBuf := [] }
    else
      parts.dropLast.foldl captureLine { st1 with lineBuf := last }

/-- The flush at the start of `_capture_output` (lines 678-680): an
outstanding `_line_buf` is counted as a final line. -/
def captureFlush (st : CaptureState) : CaptureState :=
  if st.lineBuf.isEmpty then st
  else captureLine { st with lineBuf := [] } st.lineBuf

/-- `sum(len(s) for s in l)`. -/
def sumLen (l : List (List Char)) : Nat :=
  (l.map List.length).sum

/-- The text assembled by `_capture_output` (lines 682-690), on a flushed
state. -/
def captureOutputText (st : CaptureState) : String :=
  match st.fullLines with
  | some l => ⟨l.flatten⟩
  | none =>
    let elided := st.totalLines - st.headLines.length - st.tailLines.length
    ⟨st.headLines.flatten
      ++ ("\n\n... [" ++ toString elided ++ " lines elided, see transcript] ...\n\n").data
      ++ st.tailLines.flatten⟩

/-- `captured_bytes` of `_capture_stats` (lines 692-698). -/
def capturedBytes (st : CaptureState) : Nat :=
  match st.fullLines with
  | some l => sumLen l
  | none => sumLen st.headLines + sumLen st.tailLines

/-- `output_truncated` of `_capture_stats`. -/
def captureTruncated (st : CaptureState) : Bool :=
  st.fullLines.isNone

/-- `dropped_bytes` of `_capture_stats` (lines 699-701):
`total - captured`, clamped at zero. -/
def captureDropped (st : CaptureState) : Int :=
  let d : Int := (st.totalBytes : Int) - (capturedBytes st : Int)
  if d < 0 then 0 else d

/-- An operation's whole capture life-cycle: a fresh buffer
(`_capture_reset`), the drained chunks in order (`_capture_chunk`), then the
flush performed by `_capture_output` before `_capture_stats` is read. -/
def captureRun (chunks : List String) : CaptureState :=
  captureFlush (chunks.foldl (fun st c => captureChunk st c.data) initCapture)

/-! ## Derived predicates used in the theorem statements -/

/-- Some REPL prompt substring occurs in the tail line (the REPL loop's
pattern test, without the cursor guard). -/
def replTailHitB (tl : String) : Bool :=
  replPatterns.any (fun pr => strContains tl pr.1 || strContains (pyLower tl) pr.1)

/-- The stripped tail line hits one of the shell-prompt branches
(`$`/`#` with the progress-bar filter, bare `>`, or zsh `%`). -/
def shellTailHitB (s : String) : Bool :=
  (shellPromptCheck s none).isSome

/-- 33 distinct session ids, used to overflow `_max_sessions = 32`. -/
def ids33 : List String :=
  ["s0", "s1", "s2", "s3", "s4", "s5", "s6", "s7", "s8", "s9", "s10", "s11",
   "s12", "s13", "s14", "s15", "s16", "s17", "s18", "s19", "s20", "s21", "s22",
   "s23", "s24", "s25", "s26", "s27", "s28", "s29", "s30", "s31", "s32"]

/-- The line-count/byte-count invariant of the capture buffer, with `pending`
bytes counted in `totalBytes` but not yet attributed to captured lines. -/
def linesOK (l : List (List Char)) : Prop :=
  ∀ s ∈ l, 1 ≤ s.length

def CapInv (st : CaptureState) (pending : Nat) : Prop :=
  (∀ l, st.fullLines = some l →
    st.totalBytes = sumLen l + pending ∧ st.totalLines = l.length ∧
    l.length ≤ captureMaxLines ∧ linesOK l) ∧
  (st.fullLines = none →
    st.headLines.length = captureContextLines ∧
    st.tailLines.length = captureContextLines ∧
    captureMaxLines + 1 ≤ st.totalLines ∧ linesOK st.tailLines ∧
    sumLen st.headLines + sumLen st.tailLines + pending
      + (st.totalLines - 2 * captureContextLines) ≤ st.totalBytes)

/-- The invariant as maintained between chunks: the pending bytes are the
outstanding `_line_buf`. -/
def CapMain (st : CaptureState) : Prop :=
  CapInv st st.lineBuf.length

/-! # Theorems -/

/-! ## Generic helper lemmas -/

theorem strStartsWith_of_data_prefix (s pre : String) (h : pre.data <+: s.data) :
    strStartsWith s pre = true :=
  List.isPrefixOf_iff_prefix.mpr h

theorem strStartsWith_append (a b : String) : strStartsWith (a ++ b) a = true := by
  apply strStartsWith_of_data_prefix
  rw [String.data_append]
  exact List.prefix_append _ _

theorem strStartsWith_self (a : String) : strStartsWith a a = true :=
  strStartsWith_of_data_prefix _ _ List.prefix_rfl

theorem char_le_of_toNat {a b : Char} (h : a.toNat ≤ b.toNat) : a ≤ b :=
  Char.le_def.mpr h

theorem char_toNat_le_of_le {a b : Char} (h : a ≤ b) : a.toNat ≤ b.toNat :=
  Char.le_def.mp h

/-! ## C2: `send_password` output and logging -/

/-- C2 counterexample: with password `"password sent]"` and empty post-output
the reply `output` is exactly `"[password sent]"`, which contains the
password as a substring — the claim's "never contains p" fails. -/
theorem send_password_counterexample :
    sendPasswordOutput "password sent]" "" = "[password sent]" ∧
    ("password sent]" : String) ≠ "" ∧
    strContains (sendPasswordOutput "password sent]" "") "password sent]" = true := by
  decide

/-- C2 (amended): for every non-empty password, the reply `output` starts
with `"[password sent]"` and is either exactly that marker or the marker
plus a newline plus the post-output with every occurrence of the password
replaced by `"[redacted]"` (the password may still appear as a substring
when it overlaps the marker or replacement text); the underlying
`session.type` call is made with `log=False`, so no `commands.log`,
`interaction.log` or `transcript.log` write occurs during the call. -/
theorem send_password_amended (p post : String) (chunks : List String)
    (output status : String) (hp : p ≠ "") :
    strStartsWith (sendPasswordOutput p post) "[password sent]" = true ∧
    (sendPasswordOutput p post = "[password sent]" ∨
      sendPasswordOutput p post = "[password sent]\n" ++ pyReplace post p "[redacted]") ∧
    (sendPasswordTypeCall p).log = false ∧
    typeLogWrites (sendPasswordTypeCall p).log (sendPasswordTypeCall p).text
      chunks output status = [] := by
  refine ⟨?_, ?_, rfl, rfl⟩
  · unfold sendPasswordOutput
    simp only [hp, if_true, ne_eq, not_false_iff]
    split
    · apply strStartsWith_of_data_prefix
      rw [String.data_append]
      exact List.IsPrefix.trans (by decide) (List.prefix_append _ _)
    · exact strStartsWith_self _
  · unfold sendPasswordOutput
    simp only [hp, if_true, ne_eq, not_false_iff]
    split
    · right; rfl
    · left; rfl

/-- C2 witness at the spec's own scenario password. -/
theorem send_password_witness :
    strStartsWith (sendPasswordOutput "not_a_secret" "xx not_a_secret yy")
      "[password sent]" = true ∧
    (sendPasswordOutput "not_a_secret" "xx not_a_secret yy" = "[password sent]" ∨
      sendPasswordOutput "not_a_secret" "xx not_a_secret yy"
        = "[password sent]\n" ++ pyReplace "xx not_a_secret yy" "not_a_secret" "[redacted]") ∧
    (sendPasswordTypeCall "not_a_secret").log = false ∧
    typeLogWrites (sendPasswordTypeCall "not_a_secret").log
      (sendPasswordTypeCall "not_a_secret").text ["chunk"] "out" "quiescent" = [] :=
  send_password_amended "not_a_secret" "xx not_a_secret yy" ["chunk"] "out" "quiescent"
    (by decide)

/-! ## C8: oracle refinement -/

/-- C8: the oracle result is used only when the heuristic label is RUNNING
(otherwise the reply is the heuristic result, whatever the oracle would
say); an oracle answer in {PASSWORD, CONFIRM, REPL, EDITOR, PAGER}
supersedes RUNNING; an oracle answer of READY is ignored and the final
label stays RUNNING. -/
theorem oracle_ready_ignored (avail : Bool) (o : TermState × String)
    (screen : String) (cx : Option Nat) (matcher : Option (String → Option String)) :
    ((detectStateHeuristic screen cx matcher).1 ≠ TermState.RUNNING →
      determineTerminalState avail o screen cx matcher
        = detectStateHeuristic screen cx matcher) ∧
    (oracleOverrides o.1 = true →
      (detectStateHeuristic screen cx matcher).1 = TermState.RUNNING →
      determineTerminalState true o screen cx matcher = o) ∧
    (o.1 = TermState.READY →
      (detectStateHeuristic screen cx matcher).1 = TermState.RUNNING →
      (determineTerminalState true o screen cx matcher).1 = TermState.RUNNING) := by
  refine ⟨fun hne => ?_, fun hov hrun => ?_, fun hready hrun => ?_⟩
  · unfold determineTerminalState
    cases avail <;> simp [hne]
  · unfold determineTerminalState
    simp [hrun, hov]
  · unfold determineTerminalState
    simp [hrun, hready, oracleOverrides]

/-- C8 witness: a plain-text screen is heuristically RUNNING, and an oracle
answer of READY leaves the final label RUNNING. -/
theorem oracle_ready_ignored_witness :
    (determineTerminalState true (TermState.READY, "oracle says ready")
      "plain text" none none).1 = TermState.RUNNING :=
  (oracle_ready_ignored true (TermState.READY, "oracle says ready")
    "plain text" none none).2.2 rfl (by decide)

/-! ## C9: `send_control` key validation -/

/-- C9 counterexample: `key = "é"` is a single non-ASCII letter; Python's
`str.isalpha` accepts it, so `send_control` sends `chr(0xE9 - 0x61 + 1)` =
`chr(137)` instead of rejecting the key as the claim requires. -/
theorem send_control_counterexample :
    sendControlChar "é" = some (Char.ofNat 137) ∧
    127 < ("é".data.getD 0 ' ').toNat := by
  decide

/-- C9 (amended): `send_control` accepts `[`/`escape`/`esc` (any case) as
ESC, and any single alphabetic character per Python `str.isalpha` —
including non-ASCII letters — mapped to `chr(ord(lowercased) - ord('a') + 1)`;
for a lowercase ASCII letter this is the control code 1..26; every other
key is rejected (`ValueError`) and nothing is sent. -/
theorem send_control_amended (key : String) (c : Char) :
    (pyLower key = "[" ∨ pyLower key = "escape" ∨ pyLower key = "esc" →
      sendControlChar key = some '\x1b') ∧
    (97 ≤ c.toNat → c.toNat ≤ 122 →
      sendControlChar ⟨[c]⟩ = some (Char.ofNat (c.toNat - 'a'.toNat + 1)) ∧
      1 ≤ c.toNat - 'a'.toNat + 1 ∧ c.toNat - 'a'.toNat + 1 ≤ 26) ∧
    (pyLower key ≠ "[" → pyLower key ≠ "escape" → pyLower key ≠ "esc" →
      ¬((pyLower key).length = 1 ∧
        pyIsAlphaChar ((pyLower key).data.getD 0 ' ') = true) →
      sendControlChar key = none) := by
  refine ⟨fun hesc => ?_, fun h1 h2 => ?_, fun hne1 hne2 hne3 hnl => ?_⟩
  · unfold sendControlChar
    rcases hesc with h | h | h <;> simp [h]
  · have hlc : pyLowerChar c = c := by
      unfold pyLowerChar
      have hZ : decide (c ≤ 'Z') = false := by
        apply decide_eq_false
        intro hle
        have h90 := char_toNat_le_of_le hle
        rw [show ('Z').toNat = 90 from rfl] at h90
        omega
      have hC0 : decide (0xC0 ≤ c.toNat) = false := by
        apply decide_eq_false
        omega
      simp [hZ, hC0]
    have hlow : pyLower ⟨[c]⟩ = ⟨[c]⟩ := by
      unfold pyLower
      simp [hlc]
    have hbr : (⟨[c]⟩ : String) ≠ "[" := by
      intro h
      have hc : c = '[' := by simpa using congrArg String.data h
      rw [hc, show ('[').toNat = 91 from rfl] at h1
      omega
    have hes : (⟨[c]⟩ : String) ≠ "escape" := by
      intro h
      simpa using congrArg String.data h
    have hes2 : (⟨[c]⟩ : String) ≠ "esc" := by
      intro h
      simpa using congrArg String.data h
    have halpha : pyIsAlphaChar c = true := by
      have hlo : c.isLower = true := by
        simp only [Char.isLower, Bool.and_eq_true, decide_eq_true_eq]
        exact ⟨h1, h2⟩
      unfold pyIsAlphaChar
      simp [Char.isAlpha, hlo]
    refine ⟨?_, by omega, ?_⟩
    · unfold sendControlChar
      simp only [hlow]
      simp [hbr, hes, hes2, halpha, String.length]
    · rw [show ('a').toNat = 97 from rfl]
      omega
  · unfold sendControlChar
    have hor : ((pyLower key) = "[" || (pyLower key) = "escape" || (pyLower key) = "esc")
        = false := by
      simp [hne1, hne2, hne3]
    simp only [hor, Bool.false_eq_true, if_false]
    split
    · rename_i hcond
      exfalso
      apply hnl
      simpa using hcond
    · rfl

/-- C9 witness: Ctrl+C, the ESC aliases, and a rejected key. -/
theorem send_control_witness :
    sendControlChar ⟨['c']⟩ = some (Char.ofNat ('c'.toNat - 'a'.toNat + 1)) ∧
    sendControlChar "ESC" = some '\x1b' ∧
    sendControlChar "12" = none :=
  ⟨((send_control_amended ⟨['c']⟩ 'c').2.1 (by decide) (by decide)).1,
   (send_control_amended "ESC" 'c').1 (by decide),
   (send_control_amended "12" 'c').2.2 (by decide) (by decide) (by decide) (by decide)⟩

/-! ## Split/join lemmas for PATH components -/

theorem splitOnChar_ne_nil (sep : Char) (cs : List Char) : splitOnChar sep cs ≠ [] := by
  induction cs with
  | nil => simp [splitOnChar]
  | cons c rest ih =>
    unfold splitOnChar
    split
    · simp
    · cases h : splitOnChar sep rest <;> simp [consHead]

theorem splitOnChar_no_sep (sep : Char) (cs : List Char) :
    ∀ p ∈ splitOnChar sep cs, sep ∉ p := by
  induction cs with
  | nil =>
    intro p hp
    simp only [splitOnChar, List.mem_singleton] at hp
    subst hp; simp
  | cons c rest ih =>
    intro p hp
    unfold splitOnChar at hp
    by_cases hc : c = sep
    · rw [if_pos hc] at hp
      rcases List.mem_cons.mp hp with h | h
      · subst h; simp
      · exact ih p h
    · rw [if_neg hc] at hp
      cases hsp : splitOnChar sep rest with
      | nil => exact absurd hsp (splitOnChar_ne_nil sep rest)
      | cons l ls =>
        rw [hsp] at hp
        simp only [consHead] at hp
        rcases List.mem_cons.mp hp with h | h
        · subst h
          intro hmem
          rcases List.mem_cons.mp hmem with h' | h'
          · exact hc h'.symm
          · exact ih l (by rw [hsp]; exact List.mem_cons_self _ _) h'
        · exact ih p (by rw [hsp]; exact List.mem_cons_of_mem _ h)

theorem splitOnChar_of_not_mem (sep : Char) (l : List Char) (h : sep ∉ l) :
    splitOnChar sep l = [l] := by
  induction l with
  | nil => rfl
  | cons c rest ih =>
    have hc : ¬ c = sep := fun e => h (e ▸ List.mem_cons_self c rest)
    have hr : sep ∉ rest := fun m => h (List.mem_cons_of_mem _ m)
    unfold splitOnChar
    rw [if_neg hc, ih hr]
    rfl

theorem splitOnChar_append_sep (sep : Char) (l t : List Char) (h : sep ∉ l) :
    splitOnChar sep (l ++ sep :: t) = l :: splitOnChar sep t := by
  induction l with
  | nil => simp [splitOnChar]
  | cons c rest ih =>
    have hc : ¬ c = sep := fun e => h (e ▸ List.mem_cons_self c rest)
    have hr : sep ∉ rest := fun m => h (List.mem_cons_of_mem _ m)
    show splitOnChar sep (c :: (rest ++ sep :: t)) = _
    simp only [splitOnChar, if_neg hc, ih hr, consHead]

theorem splitOnChar_joinWithChar (sep : Char) (parts : List (List Char))
    (hne : parts ≠ []) (hsep : ∀ p ∈ parts, sep ∉ p) :
    splitOnChar sep (joinWithChar sep parts) = parts := by
  induction parts with
  | nil => exact absurd rfl hne
  | cons l ls ih =>
    cases ls with
    | nil =>
      show splitOnChar sep l = [l]
      exact splitOnChar_of_not_mem sep l (hsep l (List.mem_cons_self _ _))
    | cons l2 ls2 =>
      show splitOnChar sep (l ++ sep :: joinWithChar sep (l2 :: ls2)) = _
      rw [splitOnChar_append_sep sep l _ (hsep l (List.mem_cons_self _ _)),
        ih (by simp) (fun p hp => hsep p (List.mem_cons_of_mem _ hp))]

theorem splitPathsep_joinPathsep (parts : List String) (hne : parts ≠ [])
    (hsep : ∀ p ∈ parts, ':' ∉ p.data) :
    splitPathsep (joinPathsep parts) = parts := by
  unfold splitPathsep joinPathsep
  rw [splitOnChar_joinWithChar ':' (parts.map String.data) (by simpa using hne)
    (by intro p hp; obtain ⟨q, hq, rfl⟩ := List.mem_map.mp hp; exact hsep q hq)]
  rw [List.map_map]
  have : ((fun cs => (⟨cs⟩ : String)) ∘ String.data) = id := funext fun s => rfl
  rw [this, List.map_id]

theorem splitPathsep_sepFree (pv : String) : ∀ q ∈ splitPathsep pv, ':' ∉ q.data := by
  intro q hq
  unfold splitPathsep at hq
  obtain ⟨cs, hcs, rfl⟩ := List.mem_map.mp hq
  simpa using splitOnChar_no_sep ':' pv.data cs hcs

/-- Any output of `_path_without_entry` is either the empty string or has no
empty PATH component. -/
theorem pathWithoutEntry_shape (normAbs : String → String) (pv entry : String) :
    pathWithoutEntry normAbs pv entry = "" ∨
      ∀ p ∈ splitPathsep (pathWithoutEntry normAbs pv entry), p ≠ "" := by
  unfold pathWithoutEntry
  by_cases hpv : pv = ""
  · left; rw [if_pos hpv]
  · rw [if_neg hpv]
    cases hk : (splitPathsep pv).filter
        (fun part => part ≠ "" && normAbs part ≠ normAbs entry) with
    | nil => left; rfl
    | cons k ks =>
      right
      intro p hp
      rw [splitPathsep_joinPathsep (k :: ks) (by simp)
        (fun q hq => splitPathsep_sepFree pv q (List.mem_filter.mp (hk.symm ▸ hq)).1)] at hp
      have := (List.mem_filter.mp (hk.symm ▸ hp)).2
      simp only [Bool.and_eq_true, decide_eq_true_eq] at this
      simpa using this.1

theorem sessionEnvPath_fold_shape (normAbs : String → String) (bins : List String)
    (pv b : String) :
    (bins.foldl (fun acc bb => pathWithoutEntry normAbs acc bb)
        (pathWithoutEntry normAbs pv b)) = "" ∨
      ∀ p ∈ splitPathsep (bins.foldl (fun acc bb => pathWithoutEntry normAbs acc bb)
          (pathWithoutEntry normAbs pv b)), p ≠ "" := by
  induction bins generalizing pv b with
  | nil => simpa using pathWithoutEntry_shape normAbs pv b
  | cons b2 bins ih =>
    simpa using ih (pathWithoutEntry normAbs pv b) b2

/-! ## C10: PATH sanitation -/

/-- C10 counterexample: with no leaked virtualenv and a non-venv interpreter,
`_session_env` never invokes the helper, so the child inherits the parent's
`PATH` verbatim — including its empty component. -/
theorem path_sanitation_counterexample :
    sessionEnvPath id ⟨"/usr/bin::/bin", none, "/usr/local/bin", false⟩
      = "/usr/bin::/bin" ∧
    "" ∈ splitPathsep (sessionEnvPath id ⟨"/usr/bin::/bin", none, "/usr/local/bin", false⟩) := by
  decide

/-- C10 (amended): `_path_without_entry` keeps exactly the non-empty
components whose normalised path differs from the entry, verbatim and in
order (re-splitting its output returns that filtered list, or `[""]` when
everything was dropped); hence whenever at least one leaked `bin` directory
is detected the child's `PATH` is either empty or free of empty components,
but when no leaked `bin` is detected the parent's `PATH` — empty components
included — is passed through unchanged. -/
theorem path_sanitation_amended (normAbs : String → String) (pathValue entry : String)
    (inp : SessionEnvInput) :
    (pathValue ≠ "" →
      splitPathsep (pathWithoutEntry normAbs pathValue entry) =
        (if ((splitPathsep pathValue).filter
              (fun part => part ≠ "" && normAbs part ≠ normAbs entry)).isEmpty
         then [""]
         else (splitPathsep pathValue).filter
              (fun part => part ≠ "" && normAbs part ≠ normAbs entry))) ∧
    (((splitPathsep pathValue).filter
        (fun part => part ≠ "" && normAbs part ≠ normAbs entry)).Sublist
      (splitPathsep pathValue)) ∧
    (leakedBins inp ≠ [] →
      sessionEnvPath normAbs inp = "" ∨
        ∀ p ∈ splitPathsep (sessionEnvPath normAbs inp), p ≠ "") ∧
    (leakedBins inp = [] → sessionEnvPath normAbs inp = inp.envPath) := by
  refine ⟨fun hne => ?_, List.filter_sublist _, fun hbins => ?_, fun hbins => ?_⟩
  · unfold pathWithoutEntry
    rw [if_neg hne]
    cases hk : (splitPathsep pathValue).filter
        (fun part => part ≠ "" && normAbs part ≠ normAbs entry) with
    | nil => rfl
    | cons k ks =>
      simp only [List.isEmpty_cons, if_false]
      exact splitPathsep_joinPathsep (k :: ks) (by simp)
        (fun q hq => splitPathsep_sepFree pathValue q
          (List.mem_filter.mp (hk.symm ▸ hq)).1)
  · unfold sessionEnvPath
    cases hb : leakedBins inp with
    | nil => exact absurd hb hbins
    | cons b bins =>
      simpa using sessionEnvPath_fold_shape normAbs bins inp.envPath b
  · unfold sessionEnvPath
    rw [hbins]
    rfl

/-- C10 witness: a virtualenv `bin` plus an empty and a duplicate component. -/
theorem path_sanitation_witness :
    splitPathsep (pathWithoutEntry id "/venv/bin::/usr/bin:/venv/bin" "/venv/bin")
      = ["/usr/bin"] ∧
    (sessionEnvPath id ⟨"/usr/bin::/bin", none, "/usr/local/bin", false⟩
      = "/usr/bin::/bin") := by
  constructor
  · rw [(path_sanitation_amended id "/venv/bin::/usr/bin:/venv/bin" "/venv/bin"
      ⟨"", none, "", false⟩).1 (by decide)]
    decide
  · exact (path_sanitation_amended id "x" "y"
      ⟨"/usr/bin::/bin", none, "/usr/local/bin", false⟩).2.2.2 (by decide)

/-! ## Association-list lemmas for the session manager -/

theorem lookupA_eq_none_iff (l : List (String × Nat)) (k : String) :
    lookupA l k = none ↔ ∀ x ∈ l, x.1 ≠ k := by
  unfold lookupA
  rw [Option.map_eq_none', List.find?_eq_none]
  constructor
  · intro h x hx
    simpa using h x hx
  · intro h x hx
    simpa using h x hx

theorem lookupA_eraseA (l : List (String × Nat)) (k : String) :
    lookupA (eraseA l k) k = none := by
  rw [lookupA_eq_none_iff]
  intro x hx
  have := (List.mem_filter.mp hx).2
  simpa using this

theorem lookupA_eraseA_of_none (l : List (String × Nat)) (k k' : String)
    (h : lookupA l k = none) : lookupA (eraseA l k') k = none := by
  rw [lookupA_eq_none_iff] at h ⊢
  intro x hx
  exact h x (List.mem_filter.mp hx).1

theorem lookupA_append_singleton (l : List (String × Nat)) (k : String) (v : Nat)
    (h : lookupA l k = none) : lookupA (l ++ [(k, v)]) k = some v := by
  unfold lookupA at *
  rw [List.find?_append, Option.map_eq_none'.mp h]
  simp [List.find?]

theorem lookupA_append_singleton_ne (l : List (String × Nat)) (k k' : String) (v : Nat)
    (hne : k' ≠ k) (h : lookupA l k' = none) :
    lookupA (l ++ [(k, v)]) k' = none := by
  rw [lookupA_eq_none_iff] at h ⊢
  intro x hx
  rcases List.mem_append.mp hx with hx | hx
  · exact h x hx
  · rcases List.mem_singleton.mp hx with rfl
    simpa using fun e => hne e.symm

/-! ## C1: termination finality -/

/-- C1 counterexample: after `terminate("s")` the id is tombstoned and
unbound, yet `expect_prompt("s")` — which checks only `sessions`, never
`_terminated` — replies with `status="unknown"`, not `"terminated"`. -/
theorem terminate_finality_counterexample :
    ((mcpTerminate (createMany initSM ["s"]) "s").terminated.contains "s" = true) ∧
    lookupA (mcpTerminate (createMany initSM ["s"]) "s").sessions "s" = none ∧
    earlyReplyStatus ToolOp.expectPromptOp true false = some "unknown" ∧
    earlyReplyStatus ToolOp.expectPromptOp true false ≠ some "terminated" := by
  decide

/-- C1 (amended): after `terminate(id)` the id is in `_terminated` and out
of `sessions`; in that state every listed tool except `expect_prompt`
replies `status="terminated"`, while `expect_prompt` replies
`status="unknown"` (its early return checks only session existence). -/
theorem terminate_finality_amended (st : SMState) (id : String) (op : ToolOp)
    (h : op ≠ ToolOp.expectPromptOp) :
    (mcpTerminate st id).terminated.contains id = true ∧
    lookupA (mcpTerminate st id).sessions id = none ∧
    earlyReplyStatus op true false = some "terminated" ∧
    earlyReplyStatus ToolOp.expectPromptOp true false = some "unknown" := by
  refine ⟨?_, ?_, ?_, rfl⟩
  · unfold mcpTerminate
    dsimp only
    split <;> simp
  · unfold mcpTerminate
    dsimp only
    split
    · exact lookupA_eraseA _ _
    · rename_i hnone
      simpa using Option.not_isSome_iff_eq_none.mp (by simpa using hnone)
  · cases op <;> first | rfl | exact absurd rfl h

/-- C1 witness. -/
theorem terminate_finality_witness :
    (mcpTerminate initSM "s").terminated.contains "s" = true ∧
    lookupA (mcpTerminate initSM "s").sessions "s" = none ∧
    earlyReplyStatus ToolOp.runOp true false = some "terminated" ∧
    earlyReplyStatus ToolOp.expectPromptOp true false = some "unknown" :=
  terminate_finality_amended initSM "s" ToolOp.runOp (by decide)

/-! ## C5: LRU eviction and tombstones -/

set_option maxRecDepth 2000000 in
/-- C5 counterexample: creating 33 sessions against `_max_sessions = 32`
evicts the least-recently-used id `"s0"` from the live map, but `"s0"` is
*not* tombstoned, and a later `get_session("s0", cwd)` succeeds and binds a
fresh PTY (token 33) under the evicted id — contradicting the claim that an
evicted id must yield a `terminated` reply and never re-bind. -/
theorem lru_eviction_counterexample :
    lookupA (createMany initSM ids33).sessions "s0" = none ∧
    (createMany initSM ids33).sessions.length = 32 ∧
    (createMany initSM ids33).terminated = [] ∧
    (getSession (createMany initSM ids33) "s0" (some "/tmp")).toOption.map
      (fun r => lookupA r.1.sessions "s0") = some (some 33) := by
  decide

/-- C5 (amended): a tombstoned id never returns to live (`get_session`
raises `RuntimeError("terminated")`), and overflow eviction removes the
LRU session from the live map but does not tombstone it: creating a fresh
id leaves `_terminated` unchanged and binds a new PTY, and the evicted id
is gone from `sessions` — so an evicted id may later be re-created live. -/
theorem lru_eviction_amended (st : SMState) (id oldest cwd : String) (t : Nat) :
    (st.terminated.contains id = true →
      getSession st id (some cwd) = .error "terminated") ∧
    (st.terminated.contains id = false → lookupA st.sessions id = none →
      ∀ r, getSession st id (some cwd) = .ok r →
        r.1.terminated = st.terminated ∧
        lookupA r.1.sessions id = some st.nextPty ∧ r.2 = st.nextPty) ∧
    (st.terminated.contains id = false → lookupA st.sessions id = none →
      0 < st.maxSessions ∧ st.maxSessions ≤ st.sessions.length →
      argminP st.lastUsed = some (oldest, t) → oldest ≠ id →
      ∀ r, getSession st id (some cwd) = .ok r →
        lookupA r.1.sessions oldest = none) := by
  refine ⟨fun hterm => ?_, fun hterm hl r hr => ?_, fun hterm hl hov harg hne r hr => ?_⟩
  · unfold getSession
    rw [hterm]
    simp
  · unfold getSession at hr
    rw [hterm] at hr
    simp only [Bool.false_eq_true, if_false] at hr
    rw [hl] at hr
    simp only [Except.ok.injEq] at hr
    subst hr
    refine ⟨?_, ?_, ?_⟩
    · split
      · split <;> rfl
      · rfl
    · split
      · split
        · exact lookupA_append_singleton _ _ _ (lookupA_eraseA_of_none _ _ _ hl)
        · exact lookupA_append_singleton _ _ _ hl
      · exact lookupA_append_singleton _ _ _ hl
    · split
      · split <;> rfl
      · rfl
  · unfold getSession at hr
    rw [hterm] at hr
    simp only [Bool.false_eq_true, if_false] at hr
    rw [hl] at hr
    rw [if_pos hov, harg] at hr
    simp only [Except.ok.injEq] at hr
    subst hr
    exact lookupA_append_singleton_ne _ _ _ _ hne (lookupA_eraseA _ _)

/-- C5 witness: a fresh id on an empty manager binds PTY token 0 and leaves
the tombstone set empty; a tombstoned id errors. -/
theorem lru_eviction_witness :
    (∀ r, getSession initSM "s" (some "/tmp") = .ok r →
      r.1.terminated = initSM.terminated ∧
      lookupA r.1.sessions "s" = some initSM.nextPty ∧ r.2 = initSM.nextPty) ∧
    getSession (mcpTerminate initSM "s") "s" (some "/tmp") = .error "terminated" :=
  ⟨(lru_eviction_amended initSM "s" "x" "/tmp" 0).2.1 (by decide) (by decide),
   (lru_eviction_amended (mcpTerminate initSM "s") "s" "x" "/tmp" 0).1 (by decide)⟩

/-! ## Drainer lemmas -/

theorem drainGo_timeout (d : Int) (q : Nat) (r : Bool) (now lastOut : Nat)
    (saw : Bool) (cap : List String) (events : List ReadEvent)
    (h : d ≤ (now : Int)) :
    drainGo d q r now lastOut saw cap events = some ("timeout", cap) := by
  cases events with
  | nil => unfold drainGo; rw [if_pos h]
  | cons e rest =>
    cases rest with
    | nil => unfold drainGo; rw [if_pos h]
    | cons e2 rest2 => unfold drainGo; rw [if_pos h]

theorem drainGo_nil (d : Int) (q : Nat) (r : Bool) (now lastOut : Nat)
    (saw : Bool) (cap : List String) (h : ¬ d ≤ (now : Int)) :
    drainGo d q r now lastOut saw cap [] = none := by
  unfold drainGo
  rw [if_neg h]

theorem drainGo_cons_chunk (d : Int) (q : Nat) (r : Bool) (now lastOut : Nat)
    (saw : Bool) (cap : List String) (s : String) (e : ReadEvent)
    (tail : List ReadEvent) (he : e.outcome = ReadOutcome.chunk s)
    (hlt : ¬ d ≤ (now : Int)) :
    drainGo d q r now lastOut saw cap (e :: tail)
      = drainGo d q r now now true (cap ++ [s]) tail := by
  cases tail with
  | nil =>
    conv_lhs => rw [drainGo]
    rw [if_neg hlt, he]
  | cons e2 rest2 =>
    conv_lhs => rw [drainGo]
    rw [if_neg hlt, he]

theorem drainGo_cons_eofR (d : Int) (q : Nat) (r : Bool) (now lastOut : Nat)
    (saw : Bool) (cap : List String) (e : ReadEvent) (tail : List ReadEvent)
    (he : e.outcome = ReadOutcome.eofR) (hlt : ¬ d ≤ (now : Int)) :
    drainGo d q r now lastOut saw cap (e :: tail) = some ("eof", cap) := by
  cases tail with
  | nil =>
    conv_lhs => rw [drainGo]
    rw [if_neg hlt, he]
  | cons e2 rest2 =>
    conv_lhs => rw [drainGo]
    rw [if_neg hlt, he]

theorem drainGo_cons_errR (d : Int) (q : Nat) (r : Bool) (now lastOut : Nat)
    (saw : Bool) (cap : List String) (msg : String) (e : ReadEvent)
    (tail : List ReadEvent) (he : e.outcome = ReadOutcome.errR msg)
    (hlt : ¬ d ≤ (now : Int)) :
    drainGo d q r now lastOut saw cap (e :: tail) = some ("error", cap) := by
  cases tail with
  | nil =>
    conv_lhs => rw [drainGo]
    rw [if_neg hlt, he]
  | cons e2 rest2 =>
    conv_lhs => rw [drainGo]
    rw [if_neg hlt, he]

theorem drainGo_cons_noData_quiescent (d : Int) (q : Nat) (r : Bool)
    (now lastOut : Nat) (saw : Bool) (cap : List String) (e : ReadEvent)
    (tail : List ReadEvent) (he : e.outcome = ReadOutcome.noData)
    (hlt : ¬ d ≤ (now : Int))
    (hq : ((!r || saw) && decide ((q : Int) ≤ (now : Int) - (lastOut : Int))) = true) :
    drainGo d q r now lastOut saw cap (e :: tail) = some ("quiescent", cap) := by
  cases tail with
  | nil =>
    conv_lhs => rw [drainGo]
    rw [if_neg hlt, he, if_pos hq]
  | cons e2 rest2 =>
    conv_lhs => rw [drainGo]
    rw [if_neg hlt, he, if_pos hq]

theorem drainGo_one_noData_nq (d : Int) (q : Nat) (r : Bool) (now lastOut : Nat)
    (saw : Bool) (cap : List String) (e : ReadEvent)
    (he : e.outcome = ReadOutcome.noData) (hlt : ¬ d ≤ (now : Int))
    (hq : ((!r || saw) && decide ((q : Int) ≤ (now : Int) - (lastOut : Int))) = false) :
    drainGo d q r now lastOut saw cap [e] = none := by
  conv_lhs => rw [drainGo]
  rw [if_neg hlt, he, if_neg (by rw [hq]; exact Bool.false_ne_true)]

theorem drainGo_two_noData_nq_chunk (d : Int) (q : Nat) (r : Bool)
    (now lastOut : Nat) (saw : Bool) (cap : List String) (s : String)
    (e e2 : ReadEvent) (rest2 : List ReadEvent)
    (he : e.outcome = ReadOutcome.noData) (he2 : e2.outcome = ReadOutcome.chunk s)
    (hlt : ¬ d ≤ (now : Int))
    (hq : ((!r || saw) && decide ((q : Int) ≤ (now : Int) - (lastOut : Int))) = false) :
    drainGo d q r now lastOut saw cap (e :: e2 :: rest2)
      = drainGo d q r (now + e2.elapsedMs) (now + e2.elapsedMs) true (cap ++ [s]) rest2 := by
  conv_lhs => rw [drainGo]
  rw [if_neg hlt, he, if_neg (by rw [hq]; exact Bool.false_ne_true), he2]

theorem drainGo_two_noData_nq_noData (d : Int) (q : Nat) (r : Bool)
    (now lastOut : Nat) (saw : Bool) (cap : List String)
    (e e2 : ReadEvent) (rest2 : List ReadEvent)
    (he : e.outcome = ReadOutcome.noData) (he2 : e2.outcome = ReadOutcome.noData)
    (hlt : ¬ d ≤ (now : Int))
    (hq : ((!r || saw) && decide ((q : Int) ≤ (now : Int) - (lastOut : Int))) = false) :
    drainGo d q r now lastOut saw cap (e :: e2 :: rest2)
      = drainGo d q r (now + e2.elapsedMs) lastOut saw cap rest2 := by
  conv_lhs => rw [drainGo]
  rw [if_neg hlt, he, if_neg (by rw [hq]; exact Bool.false_ne_true), he2]

theorem drainGo_two_noData_nq_eofR (d : Int) (q : Nat) (r : Bool)
    (now lastOut : Nat) (saw : Bool) (cap : List String)
    (e e2 : ReadEvent) (rest2 : List ReadEvent)
    (he : e.outcome = ReadOutcome.noData) (he2 : e2.outcome = ReadOutcome.eofR)
    (hlt : ¬ d ≤ (now : Int))
    (hq : ((!r || saw) && decide ((q : Int) ≤ (now : Int) - (lastOut : Int))) = false) :
    drainGo d q r now lastOut saw cap (e :: e2 :: rest2) = some ("eof", cap) := by
  conv_lhs => rw [drainGo]
  rw [if_neg hlt, he, if_neg (by rw [hq]; exact Bool.false_ne_true), he2]

theorem drainGo_two_noData_nq_errR (d : Int) (q : Nat) (r : Bool)
    (now lastOut : Nat) (saw : Bool) (cap : List String) (msg : String)
    (e e2 : ReadEvent) (rest2 : List ReadEvent)
    (he : e.outcome = ReadOutcome.noData) (he2 : e2.outcome = ReadOutcome.errR msg)
    (hlt : ¬ d ≤ (now : Int))
    (hq : ((!r || saw) && decide ((q : Int) ≤ (now : Int) - (lastOut : Int))) = false) :
    drainGo d q r now lastOut saw cap (e :: e2 :: rest2) = some ("error", cap) := by
  conv_lhs => rw [drainGo]
  rw [if_neg hlt, he, if_neg (by rw [hq]; exact Bool.false_ne_true), he2]

/-- The captured list only grows along a drain. -/
theorem drainGo_captured_prefix :
    ∀ (n : Nat) (events : List ReadEvent), events.length ≤ n →
      ∀ (d : Int) (q : Nat) (r : Bool) (now lastOut : Nat) (saw : Bool)
        (cap : List String) (res : String × List String),
        drainGo d q r now lastOut saw cap events = some res → cap <+: res.2 := by
  intro n
  induction n with
  | zero =>
    intro events hlen d q r now lastOut saw cap res h
    rw [List.length_eq_zero.mp (Nat.le_zero.mp hlen)] at h
    by_cases hd : d ≤ (now : Int)
    · rw [drainGo_timeout _ _ _ _ _ _ _ _ hd] at h
      cases h; exact List.prefix_rfl
    · rw [drainGo_nil _ _ _ _ _ _ _ hd] at h
      cases h
  | succ n ih =>
    intro events hlen d q r now lastOut saw cap res h
    by_cases hd : d ≤ (now : Int)
    · rw [drainGo_timeout _ _ _ _ _ _ _ _ hd] at h
      cases h; exact List.prefix_rfl
    · cases events with
      | nil =>
        rw [drainGo_nil _ _ _ _ _ _ _ hd] at h
        cases h
      | cons e tail =>
        cases houtcome : e.outcome with
        | chunk s =>
          rw [drainGo_cons_chunk _ _ _ _ _ _ _ _ _ _ houtcome hd] at h
          have := ih tail (by simp only [List.length_cons] at hlen; omega)
            d q r now now true (cap ++ [s]) res h
          exact (List.prefix_append cap [s]).trans this
        | eofR =>
          rw [drainGo_cons_eofR _ _ _ _ _ _ _ _ _ houtcome hd] at h
          cases h; exact List.prefix_rfl
        | errR msg =>
          rw [drainGo_cons_errR _ _ _ _ _ _ _ _ _ _ houtcome hd] at h
          cases h; exact List.prefix_rfl
        | noData =>
          cases hq : ((!r || saw) && decide ((q : Int) ≤ (now : Int) - (lastOut : Int))) with
          | true =>
            rw [drainGo_cons_noData_quiescent _ _ _ _ _ _ _ _ _ houtcome hd hq] at h
            cases h; exact List.prefix_rfl
          | false =>
            cases tail with
            | nil =>
              rw [drainGo_one_noData_nq _ _ _ _ _ _ _ _ houtcome hd hq] at h
              cases h
            | cons e2 rest2 =>
              have hlen2 : rest2.length ≤ n := by
                simp only [List.length_cons] at hlen
                omega
              cases houtcome2 : e2.outcome with
              | chunk s =>
                rw [drainGo_two_noData_nq_chunk _ _ _ _ _ _ _ _ _ _ _
                  houtcome houtcome2 hd hq] at h
                have := ih rest2 hlen2 d q r (now + e2.elapsedMs) (now + e2.elapsedMs)
                  true (cap ++ [s]) res h
                exact (List.prefix_append cap [s]).trans this
              | noData =>
                rw [drainGo_two_noData_nq_noData _ _ _ _ _ _ _ _ _ _
                  houtcome houtcome2 hd hq] at h
                exact ih rest2 hlen2 d q r (now + e2.elapsedMs) lastOut saw cap res h
              | eofR =>
                rw [drainGo_two_noData_nq_eofR _ _ _ _ _ _ _ _ _ _
                  houtcome houtcome2 hd hq] at h
                cases h; exact List.prefix_rfl
              | errR msg =>
                rw [drainGo_two_noData_nq_errR _ _ _ _ _ _ _ _ _ _ _
                  houtcome houtcome2 hd hq] at h
                cases h; exact List.prefix_rfl

/-- Chunks buffered at entry are consumed (they appear in the captured
output) whenever the deadline has not yet passed. -/
theorem drainGo_chunk_mem (chunks : List String) :
    ∀ (rest : List ReadEvent) (d : Int) (q : Nat) (r : Bool) (now lastOut : Nat)
      (saw : Bool) (cap : List String) (res : String × List String),
      (now : Int) < d →
      drainGo d q r now lastOut saw cap
        (chunks.map (fun c => ReadEvent.mk (ReadOutcome.chunk c) 0) ++ rest) = some res →
      ∀ c ∈ chunks, c ∈ res.2 := by
  induction chunks with
  | nil => intro _ _ _ _ _ _ _ _ _ _ _ c hc; cases hc
  | cons c0 cs ih =>
    intro rest d q r now lastOut saw cap res hlt h c hc
    rw [List.map_cons, List.cons_append,
      drainGo_cons_chunk d q r now lastOut saw cap c0 _ _ rfl (by omega)] at h
    rcases List.mem_cons.mp hc with rfl | hmem
    · have hpref := drainGo_captured_prefix
        ((cs.map (fun c => ReadEvent.mk (ReadOutcome.chunk c) 0) ++ rest).length)
        _ le_rfl _ _ _ _ _ _ _ _ h
      exact hpref.subset (by simp)
    · exact ih rest d q r now now true (cap ++ [c0]) res hlt h c hmem

/-! ## C3: drainer ordering -/

/-- C3 counterexample: a drain entered with the deadline already passed
(`timeout = 0`) but the quiescence condition satisfied (2000 ms of silence ≥
1000 ms quiescence, `require_output = False`) returns `timeout` with nothing
captured, even though a chunk is buffered — the deadline check precedes the
step-1 immediate read, contradicting the claimed ordering. -/
theorem drainer_order_counterexample :
    drain 0 1000 false 2000 0 [⟨ReadOutcome.chunk "x", 0⟩] = some ("timeout", []) ∧
    ((1000 : Int) ≤ (2000 : Int) - (0 : Int)) ∧
    drain 0 1000 false 2000 0 [⟨ReadOutcome.chunk "x", 0⟩] ≠ some ("quiescent", ["x"]) := by
  decide

/-- C3 (amended): each drainer iteration checks the deadline first; a call
whose deadline has already passed at entry returns `timeout` without
reading anything.  When the deadline has not passed, the immediate
non-blocking read precedes the quiescence check and the quiescence check
precedes the blocking read: an entry-quiescent call (silence ≥
`quiescence_ms`, `require_output` false) whose first read finds no data
returns `quiescent`, and chunks buffered at entry are always captured in
the reply. -/
theorem drainer_order_amended (timeoutMs : Int) (quiescenceMs : Nat)
    (requireOutput : Bool) (startNow lastOutputTime : Nat)
    (events rest : List ReadEvent) (e : ReadEvent) (chunks : List String)
    (res : String × List String) :
    (timeoutMs ≤ 0 →
      drain timeoutMs quiescenceMs requireOutput startNow lastOutputTime events
        = some ("timeout", [])) ∧
    (0 < timeoutMs → requireOutput = false →
      (quiescenceMs : Int) ≤ (startNow : Int) - (lastOutputTime : Int) →
      e.outcome = ReadOutcome.noData →
      drain timeoutMs quiescenceMs requireOutput startNow lastOutputTime (e :: rest)
        = some ("quiescent", [])) ∧
    (0 < timeoutMs →
      drain timeoutMs quiescenceMs requireOutput startNow lastOutputTime
        (chunks.map (fun c => ReadEvent.mk (ReadOutcome.chunk c) 0) ++ rest)
        = some res →
      ∀ c ∈ chunks, c ∈ res.2) := by
  refine ⟨fun hle => ?_, fun hpos hreq hq hnd => ?_, fun hpos h => ?_⟩
  · exact drainGo_timeout _ _ _ _ _ _ _ _ (by omega)
  · unfold drain
    apply drainGo_cons_noData_quiescent _ _ _ _ _ _ _ _ _ hnd (by omega)
    rw [hreq]
    simpa using hq
  · exact drainGo_chunk_mem chunks rest _ _ _ _ _ _ _ _ (by omega) h

/-- C3 witness: the three amended behaviours at concrete inputs. -/
theorem drainer_order_witness :
    drain (-5) 1000 false 2000 0 [] = some ("timeout", []) ∧
    drain 500 200 false 2000 1000 [⟨ReadOutcome.noData, 0⟩] = some ("quiescent", []) ∧
    "x" ∈ (("quiescent", ["x"]) : String × List String).2 :=
  ⟨(drainer_order_amended (-5) 1000 false 2000 0 [] [] ⟨ReadOutcome.noData, 0⟩ []
      ("", [])).1 (by decide),
   (drainer_order_amended 500 200 false 2000 1000 [] [] ⟨ReadOutcome.noData, 0⟩ []
      ("", [])).2.1 (by decide) rfl (by decide) rfl,
   (drainer_order_amended 500 0 false 0 0 [] [⟨ReadOutcome.noData, 0⟩]
      ⟨ReadOutcome.noData, 0⟩ ["x"] ("quiescent", ["x"])).2.2 (by decide) (by decide)
      "x" (by decide)⟩

/-! ## Classifier lemmas -/

theorem splitOnChar_ne_nil' (sep : Char) (cs : List Char) :
    (splitOnChar sep cs).isEmpty = false := by
  cases h : splitOnChar sep cs with
  | nil => exact absurd h (splitOnChar_ne_nil sep cs)
  | cons l ls => rfl

theorem detectLines_isEmpty (screen : String) :
    (detectLines screen).isEmpty = false := by
  unfold detectLines pySplitNL
  cases h : splitOnChar '\n' (pyStrip screen).data with
  | nil => exact absurd h (splitOnChar_ne_nil _ _)
  | cons l ls => rfl

theorem replFind_eq_none (cx : Option Nat) (tl : String)
    (h : replTailHitB tl = false) : replFind cx tl = none := by
  unfold replTailHitB at h
  unfold replFind
  split
  · rw [List.find?_eq_none.mpr ?_]
    · rfl
    · intro x hx
      rw [List.any_eq_false] at h
      simpa using h x hx
  · rfl

theorem cursorZero_pos (c : Nat) (h : 0 < c) : cursorZero (some c) = false := by
  unfold cursorZero
  simpa using Nat.pos_iff_ne_zero.mp h

theorem promptOr_zero (r : String) :
    promptOr (some 0) r = (TermState.RUNNING, "cursor at column 0") := rfl

theorem promptOr_notZero (cx : Option Nat) (r : String) (h : cursorZero cx = false) :
    promptOr cx r = (TermState.READY, r) := by
  unfold promptOr
  rw [h]
  rfl

theorem shellPromptCheck_shape (s : String) (cx : Option Nat) :
    shellPromptCheck s cx = none ∨
      ∃ reason, shellPromptCheck s cx = some (promptOr cx reason) := by
  unfold shellPromptCheck
  split_ifs <;> first | exact Or.inl rfl | exact Or.inr ⟨_, rfl⟩

theorem shellPromptCheck_isSome_indep (s : String) (cx cx' : Option Nat) :
    (shellPromptCheck s cx).isSome = (shellPromptCheck s cx').isSome := by
  unfold shellPromptCheck
  split_ifs <;> rfl

theorem shellTailHit_some (s : String) (cx : Option Nat)
    (h : shellTailHitB s = true) :
    ∃ reason, shellPromptCheck s cx = some (promptOr cx reason) := by
  have hs : (shellPromptCheck s cx).isSome = true := by
    rw [shellPromptCheck_isSome_indep s cx none]
    exact h
  rcases shellPromptCheck_shape s cx with h0 | h0
  · rw [h0] at hs
    cases hs
  · exact h0

/-- If no higher-priority branch fires and the tail line is prompt-like (via
the regex matcher or the shell-prompt section), the heuristic result is the
shared prompt outcome: RUNNING at cursor column 0, READY otherwise. -/
theorem detect_prompt_path (screen : String) (cx : Option Nat)
    (matcher : Option (String → Option String))
    (hR : replTailHitB (detectTailLast screen) = false)
    (hV : editorVimHitB (detectWindowLower screen) = false)
    (hN : editorNanoHitB (detectWindowLower screen) = false)
    (hP : pagerHitB (detectTailLast screen) (detectWindowLower screen) = false)
    (hS : (matcherSearch matcher (detectTailLast screen)).isSome = true ∨
      shellTailHitB (pyRstrip (detectTailLast screen)) = true) :
    ∃ reason, detectStateHeuristic screen cx matcher = promptOr cx reason := by
  unfold detectStateHeuristic
  dsimp only
  rw [detectLines_isEmpty screen]
  simp only [Bool.false_eq_true, if_false]
  rw [replFind_eq_none cx _ hR, hV, hN, hP]
  simp only [Bool.false_eq_true, if_false]
  cases hms : matcherSearch matcher (detectTailLast screen) with
  | some g => exact ⟨_, rfl⟩
  | none =>
    rcases hS with hS | hS
    · rw [hms] at hS
      cases hS
    · obtain ⟨reason, hr⟩ := shellTailHit_some _ cx hS
      rw [hr]
      exact ⟨reason, rfl⟩

/-- The shell-prompt section never yields READY at cursor column 0. -/
theorem shellPromptCheck_fst_at_zero (s : String) (x : TermState × String)
    (h : shellPromptCheck s (some 0) = some x) : x.1 = TermState.RUNNING := by
  rcases shellPromptCheck_shape s (some 0) with h0 | ⟨reason, h0⟩
  · rw [h0] at h
    cases h
  · rw [h0] at h
    rw [← Option.some.inj h, promptOr_zero]

/-- With the cursor at column 0 the heuristic never returns READY. -/
theorem detect_not_ready_at_zero (screen : String)
    (matcher : Option (String → Option String)) :
    (detectStateHeuristic screen (some 0) matcher).1 ≠ TermState.READY := by
  intro h
  unfold detectStateHeuristic at h
  dsimp only at h
  rw [detectLines_isEmpty screen] at h
  simp only [Bool.false_eq_true, if_false] at h
  cases hrf : replFind (some 0) (detectTailLast screen) with
  | some name => rw [hrf] at h; simp at h
  | none =>
    rw [hrf] at h
    dsimp only at h
    split at h
    · simp at h
    · split at h
      · simp at h
      · split at h
        · simp at h
        · cases hms : matcherSearch matcher (detectTailLast screen) with
          | some g =>
            rw [hms] at h
            dsimp only at h
            rw [promptOr_zero] at h
            simp at h
          | none =>
            rw [hms] at h
            dsimp only at h
            cases hsp : shellPromptCheck (pyRstrip (detectTailLast screen)) (some 0) with
            | some x =>
              rw [hsp] at h
              dsimp only at h
              rw [shellPromptCheck_fst_at_zero _ _ hsp] at h
              simp at h
            | none =>
              rw [hsp] at h
              dsimp only at h
              split at h
              · simp at h
              · split at h
                · simp at h
                · split at h
                  · simp at h
                  · split at h
                    · simp at h
                    · simp at h

/-! ## C6: cursor-0 READY suppression -/

/-- C6 counterexample: the screen `"mysql>"` ends in a bare `>` that passes
the progress-bar filters (so per the claim it "looks like a shell prompt"),
yet with `cursor_x = 1` the heuristic returns REPL, not READY — the REPL
branch has priority over the shell-prompt branches. -/
theorem cursor_zero_counterexample :
    shellTailHitB (pyRstrip (detectTailLast "mysql>")) = true ∧
    detectStateHeuristic "mysql>" (some 1) none = (TermState.REPL, "mysql prompt") ∧
    (detectStateHeuristic "mysql>" (some 1) none).1 ≠ TermState.READY := by
  decide

/-- C6 (amended): READY is never returned at cursor column 0; and for a
screen whose tail line is prompt-like (shell-prompt branch hit or
caller-supplied regex match) *and* triggers no higher-priority REPL /
editor / pager branch, the classifier returns RUNNING at `cursor_x = 0`
and READY at `cursor_x > 0`. -/
theorem cursor_zero_suppression_amended :
    (∀ (screen : String) (matcher : Option (String → Option String)),
      (detectStateHeuristic screen (some 0) matcher).1 ≠ TermState.READY) ∧
    (∀ (screen : String) (matcher : Option (String → Option String)) (c : Nat),
      replTailHitB (detectTailLast screen) = false →
      editorVimHitB (detectWindowLower screen) = false →
      editorNanoHitB (detectWindowLower screen) = false →
      pagerHitB (detectTailLast screen) (detectWindowLower screen) = false →
      ((matcherSearch matcher (detectTailLast screen)).isSome = true ∨
        shellTailHitB (pyRstrip (detectTailLast screen)) = true) →
      (detectStateHeuristic screen (some 0) matcher).1 = TermState.RUNNING ∧
      (0 < c → (detectStateHeuristic screen (some c) matcher).1 = TermState.READY)) := by
  refine ⟨detect_not_ready_at_zero, fun screen matcher c hR hV hN hP hS => ⟨?_, fun hc => ?_⟩⟩
  · obtain ⟨reason, hr⟩ := detect_prompt_path screen (some 0) matcher hR hV hN hP hS
    rw [hr, promptOr_zero]
  · obtain ⟨reason, hr⟩ := detect_prompt_path screen (some c) matcher hR hV hN hP hS
    rw [hr, promptOr_notZero _ _ (cursorZero_pos c hc)]

/-- C6 witness: `bash-5.3$` is READY at cursor 10 and RUNNING at cursor 0. -/
theorem cursor_zero_suppression_witness :
    (detectStateHeuristic "bash-5.3$" (some 0) none).1 = TermState.RUNNING ∧
    (detectStateHeuristic "bash-5.3$" (some 10) none).1 = TermState.READY ∧
    (detectStateHeuristic "Password:" (some 0) none).1 ≠ TermState.READY :=
  ⟨((cursor_zero_suppression_amended.2 "bash-5.3$" none 10 (by decide) (by decide)
      (by decide) (by decide) (Or.inr (by decide)))).1,
   ((cursor_zero_suppression_amended.2 "bash-5.3$" none 10 (by decide) (by decide)
      (by decide) (by decide) (Or.inr (by decide)))).2 (by decide),
   cursor_zero_suppression_amended.1 "Password:" none⟩

/-! ## C7: stale scrollback anchoring -/

/-- PASSWORD / CONFIRM / ERROR labels only arise from their tail-window
guards (`pw_recent` — the last ≤3 non-empty window lines — for the first
two, `recent` for errors, the latter additionally requiring a non-zero
cursor column). -/
theorem detect_recent_anchor (screen : String) (cx : Option Nat)
    (matcher : Option (String → Option String)) :
    ((detectStateHeuristic screen cx matcher).1 = TermState.PASSWORD →
      passwordPatterns.any (fun p => strContains (pwRecentLower screen) p) = true) ∧
    ((detectStateHeuristic screen cx matcher).1 = TermState.CONFIRM →
      confirmIndicators.any (fun p => strContains (pwRecentLower screen) p) = true) ∧
    ((detectStateHeuristic screen cx matcher).1 = TermState.ERROR →
      errorIndicators.any (fun p => strContains (errRecentJoin screen) p) = true ∧
      cursorZero cx = false) := by
  unfold detectStateHeuristic
  dsimp only
  rw [detectLines_isEmpty screen]
  simp only [Bool.false_eq_true, if_false]
  cases hrf : replFind cx (detectTailLast screen) with
  | some name => simp
  | none =>
    dsimp only
    by_cases hv : editorVimHitB (detectWindowLower screen) = true
    · rw [if_pos hv]; simp
    · rw [if_neg hv]
      by_cases hn : editorNanoHitB (detectWindowLower screen) = true
      · rw [if_pos hn]; simp
      · rw [if_neg hn]
        by_cases hp : pagerHitB (detectTailLast screen) (detectWindowLower screen) = true
        · rw [if_pos hp]; simp
        · rw [if_neg hp]
          cases hms : matcherSearch matcher (detectTailLast screen) with
          | some g =>
            dsimp only
            unfold promptOr
            split <;> simp
          | none =>
            dsimp only
            cases hsp : shellPromptCheck (pyRstrip (detectTailLast screen)) cx with
            | some x =>
              dsimp only
              rcases shellPromptCheck_shape (pyRstrip (detectTailLast screen)) cx
                with h0 | ⟨reason, h0⟩
              · rw [h0] at hsp; cases hsp
              · rw [h0] at hsp
                rw [← Option.some.inj hsp]
                unfold promptOr
                split <;> simp
            | none =>
              dsimp only
              by_cases hpw : passwordPatterns.any
                  (fun p => strContains (pwRecentLower screen) p) = true
              · rw [if_pos hpw]; simp [hpw]
              · rw [if_neg hpw]
                cases hcf : List.find? (fun p => strContains (pwRecentLower screen) p)
                    confirmIndicators with
                | some ind =>
                  dsimp only
                  refine ⟨fun hx => ?_, fun _ => ?_, fun hx => ?_⟩
                  · simp at hx
                  · exact List.any_eq_true.mpr
                      ⟨ind, List.mem_of_find?_eq_some hcf, List.find?_some hcf⟩
                  · simp at hx
                | none =>
                  dsimp only
                  by_cases hcz : cursorZero cx = true
                  · rw [if_pos hcz]; simp
                  · rw [if_neg hcz]
                    have hczf : cursorZero cx = false := by
                      cases hb : cursorZero cx
                      · rfl
                      · exact absurd hb hcz
                    cases herr : List.find? (fun p => strContains (errRecentJoin screen) p)
                        errorIndicators with
                    | some ind =>
                      dsimp only
                      refine ⟨fun hx => ?_, fun hx => ?_, fun _ => ?_⟩
                      · simp at hx
                      · simp at hx
                      · exact ⟨List.any_eq_true.mpr
                          ⟨ind, List.mem_of_find?_eq_some herr, List.find?_some herr⟩, hczf⟩
                    | none => simp

/-- C7 counterexample: the screen ends in the shell prompt `foo$` with a
`Traceback` line above it, but at cursor column 0 the classifier returns
RUNNING, not READY as the claim requires. -/
theorem stale_scrollback_counterexample :
    strContains (pyLower "Traceback (most recent call last):\nfoo$") "traceback" = true ∧
    shellTailHitB (pyRstrip (detectTailLast "Traceback (most recent call last):\nfoo$"))
      = true ∧
    detectStateHeuristic "Traceback (most recent call last):\nfoo$" (some 0) none
      = (TermState.RUNNING, "cursor at column 0") := by
  decide

/-- C7 (amended): for any screen, PASSWORD and CONFIRM are only returned
when a trigger pattern occurs within the last ≤3 non-empty lines of the
12-line window (`pw_recent`), and ERROR only when a trigger occurs there
*and* the cursor is not at column 0; a screen whose stripped tail line hits
a shell-prompt branch — with no REPL/editor/pager indicator — classifies
READY whenever the cursor is not at column 0 (and RUNNING at column 0, per
the cursor rule), regardless of `Traceback`/`Password:`/`[y/n]` text on
earlier lines. -/
theorem stale_scrollback_amended (screen : String) (cx : Option Nat)
    (matcher : Option (String → Option String)) :
    ((detectStateHeuristic screen cx matcher).1 = TermState.PASSWORD →
      passwordPatterns.any (fun p => strContains (pwRecentLower screen) p) = true) ∧
    ((detectStateHeuristic screen cx matcher).1 = TermState.CONFIRM →
      confirmIndicators.any (fun p => strContains (pwRecentLower screen) p) = true) ∧
    ((detectStateHeuristic screen cx matcher).1 = TermState.ERROR →
      errorIndicators.any (fun p => strContains (errRecentJoin screen) p) = true ∧
      cursorZero cx = false) ∧
    (replTailHitB (detectTailLast screen) = false →
      editorVimHitB (detectWindowLower screen) = false →
      editorNanoHitB (detectWindowLower screen) = false →
      pagerHitB (detectTailLast screen) (detectWindowLower screen) = false →
      shellTailHitB (pyRstrip (detectTailLast screen)) = true →
      cursorZero cx = false →
      (detectStateHeuristic screen cx matcher).1 = TermState.READY) := by
  obtain ⟨h1, h2, h3⟩ := detect_recent_anchor screen cx matcher
  refine ⟨h1, h2, h3, fun hR hV hN hP hS hcz => ?_⟩
  obtain ⟨reason, hr⟩ := detect_prompt_path screen cx matcher hR hV hN hP (Or.inr hS)
  rw [hr, promptOr_notZero _ _ hcz]

/-- C7 witness: a traceback above a prompt line still classifies READY at a
non-zero cursor, and a bare password prompt classifies PASSWORD with the
trigger inside `pw_recent`. -/
theorem stale_scrollback_witness :
    (detectStateHeuristic "Traceback (most recent call last):\nfoo$" (some 5) none).1
      = TermState.READY ∧
    passwordPatterns.any
      (fun p => strContains (pwRecentLower "Enter password:") p) = true :=
  ⟨(stale_scrollback_amended "Traceback (most recent call last):\nfoo$" (some 5)
      none).2.2.2 (by decide) (by decide) (by decide) (by decide) (by decide) (by decide),
   (stale_scrollback_amended "Enter password:" none none).1 (by decide)⟩


/-! ## C4 — capture accounting -/

theorem sumLen_append (a b : List (List Char)) :
    sumLen (a ++ b) = sumLen a + sumLen b := by
  simp [sumLen]

theorem sumLen_cons (x : List Char) (xs : List (List Char)) :
    sumLen (x :: xs) = x.length + sumLen xs := by
  simp [sumLen]

theorem length_le_sumLen (l : List (List Char)) (h : linesOK l) :
    l.length ≤ sumLen l := by
  induction l with
  | nil => simp [sumLen]
  | cons x xs ih =>
    have hx := h x (List.mem_cons_self x xs)
    have hxs := ih (fun s hs => h s (List.mem_cons_of_mem x hs))
    rw [sumLen_cons, List.length_cons]
    omega

theorem splitLinesKeepAux_nil_flatten (acc : List Char) :
    (splitLinesKeepAux acc []).flatten = acc.reverse := by
  unfold splitLinesKeepAux
  split
  · rename_i h
    simp [List.isEmpty_iff.mp h]
  · simp

theorem splitLinesKeepAux_one_flatten (acc : List Char) (c : Char) :
    (splitLinesKeepAux acc [c]).flatten = acc.reverse ++ [c] := by
  unfold splitLinesKeepAux
  split
  · simp
  · simp

theorem splitLinesKeepAux_flatten :
    ∀ (n : Nat) (cs : List Char), cs.length ≤ n →
      ∀ acc, (splitLinesKeepAux acc cs).flatten = acc.reverse ++ cs := by
  intro n
  induction n with
  | zero =>
    intro cs hlen acc
    have hnil : cs = [] := List.length_eq_zero.mp (Nat.le_zero.mp hlen)
    subst hnil
    rw [splitLinesKeepAux_nil_flatten]
    simp
  | succ n ih =>
    intro cs hlen acc
    match cs with
    | [] =>
      rw [splitLinesKeepAux_nil_flatten]
      simp
    | [c] =>
      rw [splitLinesKeepAux_one_flatten]
    | c :: c2 :: rest =>
      simp only [List.length_cons] at hlen
      unfold splitLinesKeepAux
      split
      · rename_i hrn
        simp only [Bool.and_eq_true, decide_eq_true_eq] at hrn
        obtain ⟨hc, hc2⟩ := hrn
        subst hc
        subst hc2
        rw [List.flatten_cons, ih rest (by omega) []]
        simp
      · split
        · rw [List.flatten_cons, ih (c2 :: rest) (by simp only [List.length_cons]; omega) []]
          simp
        · rw [ih (c2 :: rest) (by simp only [List.length_cons]; omega) (c :: acc)]
          simp

theorem splitLinesKeepAux_nil_mem (acc p : List Char)
    (hp : p ∈ splitLinesKeepAux acc []) : 1 ≤ p.length := by
  unfold splitLinesKeepAux at hp
  split at hp
  · cases hp
  · rename_i h
    rw [List.mem_singleton] at hp
    subst hp
    rw [List.length_reverse]
    cases acc with
    | nil => exact absurd rfl h
    | cons a as => simp

theorem splitLinesKeepAux_one_mem (acc p : List Char) (c : Char)
    (hp : p ∈ splitLinesKeepAux acc [c]) : 1 ≤ p.length := by
  unfold splitLinesKeepAux at hp
  split at hp
  · rw [List.mem_singleton] at hp
    subst hp
    simp
  · rw [List.mem_singleton] at hp
    subst hp
    simp

theorem splitLinesKeepAux_mem :
    ∀ (n : Nat) (cs : List Char), cs.length ≤ n →
      ∀ acc p, p ∈ splitLinesKeepAux acc cs → 1 ≤ p.length := by
  intro n
  induction n with
  | zero =>
    intro cs hlen acc p hp
    have hnil : cs = [] := List.length_eq_zero.mp (Nat.le_zero.mp hlen)
    subst hnil
    exact splitLinesKeepAux_nil_mem acc p hp
  | succ n ih =>
    intro cs hlen acc p hp
    match cs with
    | [] => exact splitLinesKeepAux_nil_mem acc p hp
    | [c] => exact splitLinesKeepAux_one_mem acc p c hp
    | c :: c2 :: rest =>
      simp only [List.length_cons] at hlen
      unfold splitLinesKeepAux at hp
      split at hp
      · rcases List.mem_cons.mp hp with h | h
        · subst h
          simp
        · exact ih rest (by omega) [] p h
      · split at hp
        · rcases List.mem_cons.mp hp with h | h
          · subst h
            simp
          · exact ih (c2 :: rest) (by simp only [List.length_cons]; omega) [] p h
        · exact ih (c2 :: rest) (by simp only [List.length_cons]; omega) (c :: acc) p hp

theorem splitLinesKeep_flatten (cs : List Char) :
    (splitLinesKeep cs).flatten = cs := by
  have h := splitLinesKeepAux_flatten cs.length cs le_rfl []
  simpa [splitLinesKeep] using h

theorem splitLinesKeep_linesOK (cs : List Char) :
    linesOK (splitLinesKeep cs) :=
  fun p hp => splitLinesKeepAux_mem cs.length cs le_rfl [] p hp

theorem sumLen_eq_length_flatten (l : List (List Char)) :
    sumLen l = l.flatten.length := by
  simp [sumLen, List.length_flatten]

theorem sumLen_splitLinesKeep (cs : List Char) :
    sumLen (splitLinesKeep cs) = cs.length := by
  rw [sumLen_eq_length_flatten, splitLinesKeep_flatten]

theorem capInv_shift (st : CaptureState) (p d : Nat) (b : List Char)
    (h : CapInv st p) :
    CapInv { st with totalBytes := st.totalBytes + d, lineBuf := b } (p + d) := by
  obtain ⟨h1, h2⟩ := h
  constructor
  · intro l hl
    obtain ⟨hb, htl, hle, hok⟩ := h1 l hl
    refine ⟨?_, htl, hle, hok⟩
    show st.totalBytes + d = sumLen l + (p + d)
    omega
  · intro hn
    obtain ⟨hh, ht, htl, hok, hineq⟩ := h2 hn
    refine ⟨hh, ht, htl, hok, ?_⟩
    show sumLen st.headLines + sumLen st.tailLines + (p + d)
      + (st.totalLines - 2 * captureContextLines) ≤ st.totalBytes + d
    omega

theorem capInv_line (st : CaptureState) (line : List Char) (pending : Nat)
    (h : CapInv st (line.length + pending)) (hl : 1 ≤ line.length) :
    CapInv (captureLine st line) pending := by
  obtain ⟨h1, h2⟩ := h
  unfold captureLine
  dsimp only
  cases hf : st.fullLines with
  | some l =>
    dsimp only
    obtain ⟨hb, htl, hle, hok⟩ := h1 l hf
    have hokl' : linesOK (l ++ [line]) := by
      intro s hs
      rcases List.mem_append.mp hs with h | h
      · exact hok s h
      · rw [List.mem_singleton] at h
        subst h
        exact hl
    have h100 : l.length ≤ 100 := hle
    by_cases hsw : captureMaxLines < (l ++ [line]).length
    · rw [if_pos hsw]
      have hL : (l ++ [line]).length = 101 := by
        have hsw' : 100 < (l ++ [line]).length := hsw
        simp only [List.length_append, List.length_singleton] at hsw' ⊢
        omega
      constructor
      · intro l2 hl2
        exact Option.noConfusion hl2
      · intro _
        refine ⟨?_, ?_, ?_, ?_, ?_⟩
        · show ((l ++ [line]).take captureContextLines).length = captureContextLines
          rw [List.length_take, hL]
          rfl
        · show ((l ++ [line]).drop ((l ++ [line]).length - captureContextLines)).length
            = captureContextLines
          rw [List.length_drop, hL]
          rfl
        · show captureMaxLines + 1 ≤ st.totalLines + 1
          have : st.totalLines = l.length := htl
          simp only [captureMaxLines]
          simp only [List.length_append, List.length_singleton] at hL
          omega
        · intro s hs
          exact hokl' s (List.mem_of_mem_drop hs)
        · show sumLen ((l ++ [line]).take captureContextLines)
            + sumLen ((l ++ [line]).drop ((l ++ [line]).length - captureContextLines))
            + pending + (st.totalLines + 1 - 2 * captureContextLines) ≤ st.totalBytes
          have h81 : (l ++ [line]).length - captureContextLines = 81 := by
            rw [hL]
            rfl
          rw [h81]
          have hsplit1 : sumLen (l ++ [line])
              = sumLen ((l ++ [line]).take 20) + sumLen ((l ++ [line]).drop 20) := by
            rw [← sumLen_append, List.take_append_drop]
          have hdd : ((l ++ [line]).drop 20).drop 61 = (l ++ [line]).drop 81 := by
            rw [List.drop_drop]
          have hsplit2 : sumLen ((l ++ [line]).drop 20)
              = sumLen (((l ++ [line]).drop 20).take 61)
                + sumLen ((l ++ [line]).drop 81) := by
            rw [← hdd, ← sumLen_append, List.take_append_drop]
          have hmidlen : (((l ++ [line]).drop 20).take 61).length = 61 := by
            rw [List.length_take, List.length_drop, hL]
            rfl
          have hmidok : linesOK (((l ++ [line]).drop 20).take 61) := by
            intro s hs
            exact hokl' s (List.mem_of_mem_drop (List.mem_of_mem_take hs))
          have hmid : 61 ≤ sumLen (((l ++ [line]).drop 20).take 61) := by
            calc 61 = (((l ++ [line]).drop 20).take 61).length := hmidlen.symm
              _ ≤ sumLen (((l ++ [line]).drop 20).take 61) :=
                  length_le_sumLen _ hmidok
          have hsl : sumLen (l ++ [line]) = sumLen l + line.length := by
            rw [sumLen_append]
            simp [sumLen]
          have hbytes : st.totalBytes = sumLen l + (line.length + pending) := hb
          have httl : st.totalLines = l.length := htl
          simp only [captureContextLines]
          simp only [List.length_append, List.length_singleton] at hL
          omega
    · rw [if_neg hsw]
      constructor
      · intro l2 hl2
        have he : l ++ [line] = l2 := Option.some.inj hl2
        subst he
        refine ⟨?_, ?_, ?_, hokl'⟩
        · show st.totalBytes = sumLen (l ++ [line]) + pending
          have hsl : sumLen (l ++ [line]) = sumLen l + line.length := by
            rw [sumLen_append]
            simp [sumLen]
          omega
        · show st.totalLines + 1 = (l ++ [line]).length
          simp only [List.length_append, List.length_singleton]
          omega
        · show (l ++ [line]).length ≤ captureMaxLines
          have hsw' : ¬ (100 < (l ++ [line]).length) := hsw
          simp only [captureMaxLines, List.length_append, List.length_singleton] at hsw' ⊢
          omega
      · intro hn
        exact Option.noConfusion hn
  | none =>
    dsimp only
    obtain ⟨hh, ht, htl2, hok, hineq⟩ := h2 hf
    constructor
    · intro l2 hl2
      exact Option.noConfusion hl2
    · intro _
      cases hqe : st.tailLines with
      | nil =>
        rw [hqe] at ht
        exact absurd ht (by decide)
      | cons q0 qrest =>
        rw [hqe] at ht hok hineq
        have hq21 : ((q0 :: qrest) ++ [line]).length = 21 := by
          simp only [List.length_append, ht, captureContextLines,
            List.length_singleton]
        have hdq : dequePush captureContextLines (q0 :: qrest) line
            = qrest ++ [line] := by
          unfold dequePush
          dsimp only
          rw [if_pos (by rw [hq21]; simp [captureContextLines]), hq21]
          show ((q0 :: qrest) ++ [line]).drop 1 = qrest ++ [line]
          rfl
        refine ⟨hh, ?_, ?_, ?_, ?_⟩
        · show (dequePush captureContextLines (q0 :: qrest) line).length
            = captureContextLines
          rw [hdq, List.length_append]
          have hlq : (q0 :: qrest).length = qrest.length + 1 := rfl
          simp only [captureContextLines, List.length_singleton] at ht ⊢
          omega
        · show captureMaxLines + 1 ≤ st.totalLines + 1
          simp only [captureMaxLines] at htl2 ⊢
          omega
        · intro s hs
          show 1 ≤ s.length
          have hs2 : s ∈ dequePush captureContextLines (q0 :: qrest) line := hs
          rw [hdq] at hs2
          rcases List.mem_append.mp hs2 with h | h
          · exact hok s (List.mem_cons_of_mem q0 h)
          · rw [List.mem_singleton] at h
            subst h
            exact hl
        · show sumLen st.headLines
            + sumLen (dequePush captureContextLines (q0 :: qrest) line)
            + pending + (st.totalLines + 1 - 2 * captureContextLines)
            ≤ st.totalBytes
          rw [hdq]
          have hsq : sumLen (q0 :: qrest) = q0.length + sumLen qrest :=
            sumLen_cons q0 qrest
          have hsq2 : sumLen (qrest ++ [line]) = sumLen qrest + line.length := by
            rw [sumLen_append]
            simp [sumLen]
          have hq0 : 1 ≤ q0.length := hok q0 (List.mem_cons_self q0 qrest)
          simp only [captureMaxLines] at htl2
          simp only [captureContextLines] at hineq ⊢
          omega

theorem capInv_fold (lines : List (List Char)) :
    ∀ (st : CaptureState) (pending : Nat),
      CapInv st (sumLen lines + pending) → linesOK lines →
      CapInv (lines.foldl captureLine st) pending := by
  induction lines with
  | nil =>
    intro st pending h _
    simp only [sumLen, List.map_nil, List.sum_nil, Nat.zero_add] at h
    exact h
  | cons x xs ih =>
    intro st pending h hok
    rw [List.foldl_cons]
    apply ih
    · apply capInv_line st x (sumLen xs + pending)
      · have he : sumLen (x :: xs) + pending = x.length + (sumLen xs + pending) := by
          rw [sumLen_cons]
          omega
        exact he ▸ h
      · exact hok x (List.mem_cons_self x xs)
    · exact fun s hs => hok s (List.mem_cons_of_mem x hs)

theorem captureLine_lineBuf (st : CaptureState) (line : List Char) :
    (captureLine st line).lineBuf = st.lineBuf := by
  unfold captureLine
  dsimp only
  split
  · split
    · rfl
    · rfl
  · rfl

theorem foldl_captureLine_lineBuf (lines : List (List Char)) :
    ∀ st : CaptureState, (lines.foldl captureLine st).lineBuf = st.lineBuf := by
  induction lines with
  | nil => intro st; rfl
  | cons x xs ih =>
    intro st
    rw [List.foldl_cons, ih, captureLine_lineBuf]

theorem capInv_chunk (st : CaptureState) (chunk : List Char)
    (h : CapInv st st.lineBuf.length) :
    CapInv (captureChunk st chunk) (captureChunk st chunk).lineBuf.length := by
  unfold captureChunk
  dsimp only
  cases hlast : (splitLinesKeep (st.lineBuf ++ chunk)).getLast? with
  | none =>
    dsimp only
    have hnil : splitLinesKeep (st.lineBuf ++ chunk) = [] := by
      cases hsp : splitLinesKeep (st.lineBuf ++ chunk) with
      | nil => rfl
      | cons a l =>
        rw [hsp] at hlast
        simp [List.getLast?] at hlast
    have hempty : st.lineBuf ++ chunk = [] := by
      rw [← splitLinesKeep_flatten (st.lineBuf ++ chunk), hnil]
      rfl
    have hbuf : st.lineBuf = [] := (List.append_eq_nil.mp hempty).1
    have hch : chunk = [] := (List.append_eq_nil.mp hempty).2
    subst hch
    have h' := h
    rw [hbuf] at h'
    exact h'
  | some last =>
    dsimp only
    have hpne : splitLinesKeep (st.lineBuf ++ chunk) ≠ [] := by
      intro e
      rw [e] at hlast
      exact Option.noConfusion hlast
    have hfl : (splitLinesKeep (st.lineBuf ++ chunk)).flatten = st.lineBuf ++ chunk :=
      splitLinesKeep_flatten _
    have hokp : linesOK (splitLinesKeep (st.lineBuf ++ chunk)) :=
      splitLinesKeep_linesOK _
    have hsum : sumLen (splitLinesKeep (st.lineBuf ++ chunk))
        = st.lineBuf.length + chunk.length := by
      rw [sumLen_eq_length_flatten, hfl, List.length_append]
    have hbase : ∀ b : List Char,
        CapInv { st with totalBytes := st.totalBytes + chunk.length, lineBuf := b }
          (sumLen (splitLinesKeep (st.lineBuf ++ chunk))) := by
      intro b
      rw [hsum]
      exact capInv_shift st st.lineBuf.length chunk.length b h
    split
    · rw [foldl_captureLine_lineBuf]
      have hres := capInv_fold (splitLinesKeep (st.lineBuf ++ chunk))
        { st with totalBytes := st.totalBytes + chunk.length, lineBuf := ([] : List Char) }
        0 (by rw [Nat.add_zero]; exact hbase []) hokp
      exact hres
    · rw [foldl_captureLine_lineBuf]
      have hgl : (splitLinesKeep (st.lineBuf ++ chunk)).getLast hpne = last := by
        rw [List.getLast?_eq_getLast _ hpne] at hlast
        exact Option.some.inj hlast
      have hdecomp : (splitLinesKeep (st.lineBuf ++ chunk)).dropLast ++ [last]
          = splitLinesKeep (st.lineBuf ++ chunk) := by
        rw [← hgl]
        exact List.dropLast_append_getLast hpne
      have hsum2 : sumLen (splitLinesKeep (st.lineBuf ++ chunk)).dropLast + last.length
          = sumLen (splitLinesKeep (st.lineBuf ++ chunk)) := by
        conv_rhs => rw [← hdecomp]
        rw [sumLen_append]
        simp [sumLen]
      have hokdl : linesOK (splitLinesKeep (st.lineBuf ++ chunk)).dropLast :=
        fun s hs => hokp s ((List.dropLast_sublist _).subset hs)
      have hres := capInv_fold (splitLinesKeep (st.lineBuf ++ chunk)).dropLast
        { st with totalBytes := st.totalBytes + chunk.length, lineBuf := last }
        last.length (by rw [hsum2]; exact hbase last) hokdl
      exact hres

theorem capInv_flush (st : CaptureState) (h : CapInv st st.lineBuf.length) :
    CapInv (captureFlush st) 0 := by
  unfold captureFlush
  split
  · rename_i he
    have hb : st.lineBuf = [] := List.isEmpty_iff.mp he
    have h' := h
    rw [hb] at h'
    exact h'
  · rename_i he
    apply capInv_line { st with lineBuf := [] } st.lineBuf 0
    · rw [Nat.add_zero]
      exact h
    · cases hbb : st.lineBuf with
      | nil =>
        rw [hbb] at he
        exact absurd rfl he
      | cons a l => simp

theorem capMain_chunks (chunks : List String) :
    ∀ st : CaptureState, CapInv st st.lineBuf.length →
      CapInv (chunks.foldl (fun s c => captureChunk s c.data) st)
        (chunks.foldl (fun s c => captureChunk s c.data) st).lineBuf.length := by
  induction chunks with
  | nil => intro st h; exact h
  | cons c cs ih =>
    intro st h
    rw [List.foldl_cons]
    exact ih _ (capInv_chunk st c.data h)

theorem capInv_init : CapInv initCapture 0 := by
  constructor
  · intro l hl
    have he : ([] : List (List Char)) = l := Option.some.inj hl
    cases he
    exact ⟨rfl, rfl, Nat.zero_le _, fun s hs => absurd hs (List.not_mem_nil s)⟩
  · intro hn
    exact Option.noConfusion hn

/-- **C4.** Capture accounting: for a capture life-cycle over any chunk
sequence (`_capture_reset`, the `_capture_chunk` calls, the flush of
`_capture_output`), the stats of `_capture_stats` satisfy
`dropped_bytes = total_bytes_seen − captured_bytes` (the clamp at zero
never engages), `dropped_bytes ≥ 0`, and `output_truncated` holds iff some
byte was dropped, iff more than `_max_lines = 100` lines were captured. -/
theorem capture_accounting (chunks : List String) :
    captureDropped (captureRun chunks)
        = ((captureRun chunks).totalBytes : Int)
          - (capturedBytes (captureRun chunks) : Int)
      ∧ 0 ≤ captureDropped (captureRun chunks)
      ∧ (captureTruncated (captureRun chunks) = true
          ↔ 0 < captureDropped (captureRun chunks))
      ∧ (captureTruncated (captureRun chunks) = true
          ↔ captureMaxLines < (captureRun chunks).totalLines) := by
  have h0 : CapInv initCapture initCapture.lineBuf.length := capInv_init
  have hm := capMain_chunks chunks initCapture h0
  have hf : CapInv (captureRun chunks) 0 := capInv_flush _ hm
  obtain ⟨h1, h2⟩ := hf
  cases hfull : (captureRun chunks).fullLines with
  | some l =>
    obtain ⟨hb, htl, hle, hok⟩ := h1 l hfull
    have hcap : capturedBytes (captureRun chunks) = sumLen l := by
      unfold capturedBytes
      rw [hfull]
    have htr : captureTruncated (captureRun chunks) = false := by
      unfold captureTruncated
      rw [hfull]
      rfl
    have hdr : captureDropped (captureRun chunks) = 0 := by
      unfold captureDropped
      dsimp only
      rw [hcap, hb]
      simp
    refine ⟨?_, ?_, ?_, ?_⟩
    · rw [hdr, hcap, hb]
      omega
    · rw [hdr]
    · rw [htr, hdr]
      simp
    · rw [htr, htl]
      have hnlt : ¬ (captureMaxLines < l.length) := Nat.not_lt.mpr hle
      simp [hnlt]
  | none =>
    obtain ⟨hh, ht, htl, hok, hineq⟩ := h2 hfull
    have hcap : capturedBytes (captureRun chunks)
        = sumLen (captureRun chunks).headLines
          + sumLen (captureRun chunks).tailLines := by
      unfold capturedBytes
      rw [hfull]
    have htr : captureTruncated (captureRun chunks) = true := by
      unfold captureTruncated
      rw [hfull]
      rfl
    have hc_le : capturedBytes (captureRun chunks) + 61
        ≤ (captureRun chunks).totalBytes := by
      rw [hcap]
      simp only [captureMaxLines, captureContextLines] at htl hineq
      omega
    have hdr : captureDropped (captureRun chunks)
        = ((captureRun chunks).totalBytes : Int)
          - (capturedBytes (captureRun chunks) : Int) := by
      unfold captureDropped
      dsimp only
      rw [if_neg]
      omega
    refine ⟨hdr, ?_, ?_, ?_⟩
    · rw [hdr]
      have := hc_le
      omega
    · rw [htr, hdr]
      constructor
      · intro _
        have := hc_le
        omega
      · intro _
        rfl
    · rw [htr]
      constructor
      · intro _
        simp only [captureMaxLines] at htl ⊢
        omega
      · intro _
        rfl

end PiloTY
